import Mathlib

/-!
Shallow embedding of the annotation extraction and merge engine of
iSanXoT-dbscripts (src/db.py, class creator), together with theorems checking
the natural-language specification against it.

The embedding follows the source function by function:
* string helpers mirror the Python regex/str operations used in db.py;
* `isoIds`, `isoDisplayed`, `baseTable` mirror the isoform expansion of
  `_create_qreport` (lines 299-337);
* `ensemblRow`/`refseqRow`/`ccdsRow` mirror the direct-identifier extraction
  (lines 349-404), `goDict`/`keggLookup`/`pantherValue`/`reactomeValue`/
  `corumValue` mirror `_extract_cat_*`;
* `joinOuter`/`mergeAll` mirror the pandas `DataFrame.join(how='outer')` calls
  on the isoform-id index, including its duplication of left rows when the
  right table has several rows with the same index value;
* `finalizeRow` mirrors the column completion of `to_file`.
-/

namespace DbScripts

/-! ### Character classes (Python regex classes restricted to the data at hand) -/

/-- Python regex class \s (whitespace). -/
def wsChar (c : Char) : Bool := c.isWhitespace

/-- Python regex class \w (word characters, ASCII reading). -/
def wordChar (c : Char) : Bool := c.isAlphanum || c = '_'

/-! ### String helpers mirroring the Python str/regex operations -/

/-- Drop leading whitespace of a character list (Python lstrip / regex leading \s*). -/
def trimLeftWs (l : List Char) : List Char := l.dropWhile wsChar

/-- Drop trailing whitespace of a character list (Python rstrip / regex trailing \s*). -/
def trimRightWs (l : List Char) : List Char := (l.reverse.dropWhile wsChar).reverse

/-- Python str.strip(). -/
def trimWs (l : List Char) : List Char := trimLeftWs (trimRightWs l)

/-- Split a character list on a separator character, keeping empty pieces
(the separator-level part of Python re.split). -/
def splitOnCharAux (sep : Char) (acc : List Char) : List Char → List (List Char)
  | [] => [acc.reverse]
  | c :: rest =>
    if c = sep then acc.reverse :: splitOnCharAux sep [] rest
    else splitOnCharAux sep (c :: acc) rest

def splitOnChar (sep : Char) (l : List Char) : List (List Char) :=
  splitOnCharAux sep [] l

/-- Suffix of l starting at the first occurrence of pat (None when pat never
occurs); the backbone of Python re.search with a literal pattern. -/
def findOcc (pat : List Char) : List Char → Option (List Char)
  | [] => none
  | c :: rest =>
    if pat.isPrefixOf (c :: rest) then some (c :: rest) else findOcc pat rest

/-- Python `pat in s` (substring containment). -/
def hasSub (s pat : String) : Bool := (findOcc pat.data s.data).isSome

/-- Python str.startswith. -/
def strStarts (s pat : String) : Bool := pat.data.isPrefixOf s.data

/-- Python str.replace(pat, rep): replace every (non-overlapping, left-to-right)
occurrence.  Structured with fuel one unit per consumed character, which is
enough because pat is non-empty at every use site. -/
def replAux (pat rep : List Char) : Nat → List Char → List Char
  | _, [] => []
  | 0, l => l
  | Nat.succ n, c :: cs =>
    if pat.isPrefixOf (c :: cs) then
      rep ++ replAux pat rep n ((c :: cs).drop pat.length)
    else
      c :: replAux pat rep n cs

def strReplace (s pat rep : String) : String :=
  ⟨replAux pat.data rep.data s.data.length s.data⟩

/-- Python s.replace(';', ',') — used on every formatted free-text value. -/
def replaceSemi (s : String) : String :=
  ⟨s.data.map (fun c => if c = ';' then ',' else c)⟩

/-- Python id.replace(':', '_') — cache-file-safe identifier. -/
def replaceColonU (s : String) : String :=
  ⟨s.data.map (fun c => if c = ':' then '_' else c)⟩

/-- Python re.match(r'[^,]*', s)[0]: longest comma-free prefix. -/
def takeUntilComma (s : String) : String := ⟨s.data.takeWhile (· ≠ ',')⟩

/-- Python s.split(':')[0]. -/
def headColon (s : String) : String := ⟨s.data.takeWhile (· ≠ ':')⟩

/-- Python re.sub(r'\:.*$', '', s): drop everything from the first colon on. -/
def subColon (s : String) : String := ⟨s.data.takeWhile (· ≠ ':')⟩

/-- Python re.sub(r'\.\d+$', '', s): remove one trailing '.' ++ digits suffix
when present (the version suffix of an identifier). -/
def stripVersion (s : String) : String :=
  if (s.data.reverse.takeWhile Char.isDigit).isEmpty then s
  else
    match s.data.reverse.drop (s.data.reverse.takeWhile Char.isDigit).length with
    | '.' :: rest => ⟨rest.reverse⟩
    | _ => s

/-- Python re.sub(r'\.\s+.*$', '', s): cut at the first '.' that is followed by
whitespace (removal of the bracketed isoform annotation from the last field). -/
def cutDotWs : List Char → List Char
  | [] => []
  | [c] => [c]
  | c1 :: c2 :: rest =>
    if c1 = '.' && wsChar c2 then []
    else c1 :: cutDotWs (c2 :: rest)

def stripIsoSuffix (s : String) : String := ⟨cutDotWs s.data⟩

/-- Python re.findall(r'\[([^\]]*)\]', s) restricted to its first element:
content of the first bracketed annotation, when a closing bracket follows. -/
def firstBracket (s : String) : Option String :=
  match s.data.dropWhile (· ≠ '[') with
  | [] => none
  | _ :: rest =>
    if rest.any (· = ']') then some ⟨rest.takeWhile (· ≠ ']')⟩ else none

/-- Python re.sub(r'\;$', '', s): remove one trailing ';'. -/
def dropTrailingSemi (s : String) : String :=
  if s.data.getLast? = some ';' then ⟨s.data.dropLast⟩ else s

/-- Python ';'.join(xs). -/
def joinSemi : List String → String
  | [] => ""
  | [x] => x
  | x :: y :: rest => x ++ ";" ++ joinSemi (y :: rest)

/-- Python '|'.join(xs). -/
def joinPipe : List String → String
  | [] => ""
  | [x] => x
  | x :: y :: rest => x ++ "|" ++ joinPipe (y :: rest)

/-- Python re.split(r'\s*;\s*', s).  Equivalent formulation: split on ';',
then strip the whitespace that the separator pattern would have consumed —
trailing whitespace of the first piece, both sides of middle pieces, leading
whitespace of the last piece. -/
def trimPiecesMid : List (List Char) → List String
  | [] => []
  | [p] => [⟨trimLeftWs p⟩]
  | p :: q :: rest => ⟨trimWs p⟩ :: trimPiecesMid (q :: rest)

def pysplitSemi (s : String) : List String :=
  match splitOnChar ';' s.data with
  | [] => []
  | [p] => [⟨p⟩]
  | p :: q :: rest => ⟨trimRightWs p⟩ :: trimPiecesMid (q :: rest)

/-- Python re.split(r'\s+', m, 1): cut at the first whitespace run; the second
component is the remainder after the run (empty when no whitespace occurs). -/
def splitFirstWs (s : String) : String × String :=
  let a := s.data.takeWhile (fun c => !wsChar c)
  let rest := (s.data.dropWhile (fun c => !wsChar c)).dropWhile wsChar
  (⟨a⟩, ⟨rest⟩)

/-! ### Record model (the fields of a parsed SwissProt record used by db.py) -/

/-- One protein record as Biopython's SwissProt.parse hands it to
`_create_qreport`: only the fields the function reads. -/
structure SwissRecord where
  entry_name : String
  accessions : List String
  gene_name : String
  description : String
  organism : String
  data_class : String
  comments : List String
  cross_references : List (String × List String)

/-- The primary accession, record.accessions[0]. -/
def headAcc (rec : SwissRecord) : String := rec.accessions.headD ""

/-! ### Scalar metadata extraction (db.py lines 300-308) -/

/-- Case-insensitive literal search: suffix of the original list starting at
the first occurrence of pat (pat given in lowercase), mirroring re.search with
the re.I flag and a literal pattern. -/
def findOccCI (pat : List Char) : List Char → Option (List Char)
  | [] => none
  | c :: rest =>
    if pat.isPrefixOf ((c :: rest).map Char.toLower) then some (c :: rest)
    else findOccCI pat rest

/-- Gene symbol: re.search(r'Name=([^\s|\;]*)', gene_name, re.I|re.M); the
capture after the first (case-insensitive) 'Name=' stops at whitespace, '|' or
';'; on no match the raw field is used. -/
def extractGene (s : String) : String :=
  match findOccCI "name=".data s.data with
  | some suf => ⟨(suf.drop 5).takeWhile (fun c => !(c.isWhitespace || c = '|' || c = ';'))⟩
  | none => s

/-- Characters of the regex class [RecName|SubName] (a character class, not an
alternation), lowered. -/
def dscClassChars : List Char := ['r', 'e', 'c', 'n', 'a', 'm', '|', 's', 'u', 'b']

/-- Leftmost position where one class character is followed by ': Full='
(case-insensitively); returns the remainder after ': Full='. -/
def dscFind : List Char → Option (List Char)
  | [] => none
  | c :: rest =>
    if dscClassChars.contains c.toLower && ": full=".data.isPrefixOf (rest.map Char.toLower) then
      some (rest.drop 7)
    else dscFind rest

/-- Description: re.search(r'[RecName|SubName]: Full=([^\;|\{]*)', description,
re.I|re.M); the capture stops at ';', '|' or a left brace; raw field on no
match. -/
def extractDsc (s : String) : String :=
  match dscFind s.data with
  | some after => ⟨after.takeWhile (fun c => !(c = ';' || c = '|' || c = '\x7b'))⟩
  | none => s

/-- Regex class [\w|\s] of the organism pattern. -/
def spClass (c : Char) : Bool := wordChar c || c = '|' || wsChar c

/-- Attempt of r'([\w|\s]*)\s+\(\w*\)' anchored at the head of l.  Because '('
is outside the class, the class run from the match start must be broken exactly
by '('; greediness leaves a single whitespace character to \s+, so the capture
is the run without its last character (which must be whitespace). -/
def speciesTry (l : List Char) : Option (List Char) :=
  let run := l.takeWhile spClass
  match run.getLast?, l.drop run.length with
  | some lastc, '(' :: r2 =>
    if wsChar lastc then
      match r2.drop (r2.takeWhile wordChar).length with
      | ')' :: _ => some run.dropLast
      | _ => none
    else none
  | _, _ => none

/-- Leftmost match of the organism pattern. -/
def speciesFind : List Char → Option (List Char)
  | [] => none
  | c :: rest =>
    match speciesTry (c :: rest) with
    | some cap => some cap
    | none => speciesFind rest

/-- Species: re.search(r'([\w|\s]*)\s+\(\w*\)', organism, re.I|re.M); raw
field on no match. -/
def extractSpecies (s : String) : String :=
  match speciesFind s.data with
  | some cap => ⟨cap⟩
  | none => s

/-! ### Isoform expansion (db.py lines 309-337) -/

/-- The first comment containing 'ALTERNATIVE PRODUCTS:' (db.py line 310:
altprod[0] of the filtered comment list). -/
def altProdComment (rec : SwissRecord) : Option String :=
  (rec.comments.filter (fun c => hasSub c "ALTERNATIVE PRODUCTS:")).head?

/-- Pair every 'IsoId=' token of the ';'-split comment with the token that
follows it (db.py line 315), both tokens stripped of their tags and truncated
at the first comma (line 316). -/
def isoPairsAux : List String → List (String × String)
  | [] => []
  | [a] =>
    -- an 'IsoId=' token with no following token would raise IndexError in the
    -- source; the empty sequence tag stands for that never-taken pairing
    if strStarts a "IsoId=" then
      [(takeUntilComma (strReplace a "IsoId=" ""), "")]
    else []
  | a :: b :: rest =>
    (if strStarts a "IsoId=" then
      [(takeUntilComma (strReplace a "IsoId=" ""), takeUntilComma (strReplace b "Sequence=" ""))]
    else []) ++ isoPairsAux (b :: rest)

def isoPairs (rec : SwissRecord) : List (String × String) :=
  match altProdComment rec with
  | none => []
  | some c => isoPairsAux (pysplitSemi c)

/-- The declared variant-sequence isoform ids: pairs whose sequence tag starts
with 'VSP_' (db.py line 317), in declaration order. -/
def variantIds (rec : SwissRecord) : List String :=
  ((isoPairs rec).filter (fun p => strStarts p.2 "VSP_")).map (·.1)

/-- IsoIds: the primary accession followed by the variant ids (lines 311, 317). -/
def isoIds (rec : SwissRecord) : List String :=
  headAcc rec :: variantIds rec

/-- IsoDisplayed: first id whose sequence tag starts with 'Displayed'
(lines 312, 318-319); None when there is none. -/
def isoDisplayed (rec : SwissRecord) : Option String :=
  (((isoPairs rec).filter (fun p => strStarts p.2 "Displayed")).map (·.1)).head?

/-! ### Sequence side-table (db_fasta_seqio, db.py lines 199-203, 320-329) -/

/-- The pre-built sequence side-table: isoform id mapped to (header comment,
sequence length). -/
def FastaTbl := List (String × String × Nat)

/-- Header comment for an isoform id, '' when absent (db.py line 326). -/
def commOf (fasta : FastaTbl) (i : String) : String :=
  match (List.find? (fun e => e.1 == i) fasta) with
  | some e => e.2.1
  | none => ""

/-- Sequence length for an isoform id as the string cell value, '' when absent
(db.py line 328). -/
def lenOf (fasta : FastaTbl) (i : String) : String :=
  match (List.find? (fun e => e.1 == i) fasta) with
  | some e => toString e.2.2
  | none => ""

/-! ### Tables and the isoform-keyed outer join (pandas df.join(..., how='outer')
on the Protein index, db.py lines 337, 402-404, 449-451) -/

/-- A data frame with the isoform id as index: declared column names, and rows
as (index value, association list column name to cell).  none is the NaN cell. -/
structure Table where
  cols : List String
  rows : List (String × List (String × Option String))
deriving DecidableEq

/-- An all-NaN cell list over the given columns. -/
def nullRow (cols : List String) : List (String × Option String) :=
  cols.map (fun c => (c, (none : Option String)))

/-- Left side of the outer join: every left row combines with every right row
sharing its index value (left rows are replicated when the right index value
occurs several times); a left row without a partner gets NaN right cells. -/
def joinLeftRows (rows2 : List (String × List (String × Option String)))
    (cols2 : List String)
    (rows1 : List (String × List (String × Option String))) :
    List (String × List (String × Option String)) :=
  rows1.flatMap fun r =>
    match rows2.filter (fun s => s.1 == r.1) with
    | [] => [(r.1, r.2 ++ nullRow cols2)]
    | ms => ms.map (fun s => (r.1, r.2 ++ s.2))

/-- Right side of the outer join: right rows whose index value is absent from
the left are appended with NaN left cells. -/
def joinRightRows (rows1 : List (String × List (String × Option String)))
    (cols1 : List String)
    (rows2 : List (String × List (String × Option String))) :
    List (String × List (String × Option String)) :=
  (rows2.filter (fun s => !(rows1.any (fun r => r.1 == s.1)))).map
    (fun s => (s.1, nullRow cols1 ++ s.2))

/-- pandas df1.join(df2, how='outer') on the index. -/
def joinOuter (t1 t2 : Table) : Table :=
  { cols := t1.cols ++ t2.cols,
    rows := joinLeftRows t2.rows t2.cols t1.rows ++ joinRightRows t1.rows t1.cols t2.rows }

/-- Successive joins of the partial tables onto the base table; a None table is
one the source skipped (the `if not df2.dropna(how='all').empty` guards at
lines 397 and 445). -/
def mergeAll (t : Table) : List (Option Table) → Table
  | [] => t
  | none :: ts => mergeAll t ts
  | some u :: ts => mergeAll (joinOuter t u) ts

/-- Number of rows of a table carrying a given isoform id. -/
def countKey (t : Table) (k : String) : Nat :=
  (t.rows.filter (fun r => r.1 == k)).length

/-- countKey lifted to skipped tables. -/
def countKeyO (t? : Option Table) (k : String) : Nat :=
  match t? with
  | none => 0
  | some t => countKey t k

/-! ### The base metadata table (df1, db.py lines 332-337) -/

/-- Columns of df1 after Protein becomes the index (the META list minus
'Protein', in order). -/
def metaCols : List String :=
  ["xref_UniProt_Name", "Gene", "Species", "Length", "Description",
   "Comment_Line", "prot_UniProt_Class"]

/-- df1 after `_explode` on the equal-length list columns
Protein/Length/Comment_Line and set_index('Protein'): one row per isoform id,
scalar metadata repeated on every row (np.repeat over the non-list columns). -/
def baseTable (fasta : FastaTbl) (rec : SwissRecord) : Table :=
  { cols := metaCols,
    rows := (isoIds rec).map fun i =>
      (i, [("xref_UniProt_Name", some rec.entry_name),
           ("Gene", some (extractGene rec.gene_name)),
           ("Species", some (extractSpecies rec.organism)),
           ("Length", some (lenOf fasta i)),
           ("Description", some (extractDsc rec.description)),
           ("Comment_Line", some (commOf fasta i)),
           ("prot_UniProt_Class", some rec.data_class)]) }

/-! ### Direct-identifier cross-reference extraction (db.py lines 339-404) -/

/-- The record's cross-reference tuples of one source family, in order
(the rcross dictionary built at lines 342-346 and 409-414). -/
def xrefTuples (rec : SwissRecord) (fam : String) : List (List String) :=
  (rec.cross_references.filter (fun x => x.1 == fam)).map (·.2)

/-- Bracket-driven isoform attribution (lines 361-362, 375-376, 388-389):
no bracket, or a bracket equal to the displayed isoform id, attributes the row
to the primary accession; otherwise to the bracketed id, with no check against
the known isoform list. -/
def resolveIso (acc : String) (disp : Option String) (lastField : String) : String :=
  match firstBracket lastField with
  | none => acc
  | some b => if disp = some b then acc else b

/-- One Ensembl tuple (transcript, protein, gene+isoform) turned into an
indexed row (lines 356-370): version suffixes stripped from all three ids,
the isoform annotation removed from the gene field first. -/
def ensemblRow (acc : String) (disp : Option String) (rcont : List String) :
    String × List (String × Option String) :=
  let xp := rcont.getD 1 ""
  let xt := rcont.getD 0 ""
  let g := rcont.getD 2 ""
  let i := resolveIso acc disp g
  (i, [("xref_Ensembl_protId", some (stripVersion xp)),
       ("xref_Ensembl_transcId", some (stripVersion xt)),
       ("xref_Ensembl_GeneId", some (stripVersion (stripIsoSuffix g)))])

/-- One RefSeq tuple (protein, transcript+isoform) turned into an indexed row
(lines 371-383): version suffixes stripped from both ids. -/
def refseqRow (acc : String) (disp : Option String) (rcont : List String) :
    String × List (String × Option String) :=
  let xp := rcont.getD 0 ""
  let t := rcont.getD 1 ""
  let i := resolveIso acc disp t
  (i, [("xref_RefSeq_protId", some (stripVersion xp)),
       ("xref_RefSeq_transcId", some (stripVersion (stripIsoSuffix t)))])

/-- One CCDS tuple (id, trailer+isoform) turned into an indexed row
(lines 384-390): the id is emitted verbatim — no version stripping here. -/
def ccdsRow (acc : String) (disp : Option String) (rcont : List String) :
    String × List (String × Option String) :=
  let xp := rcont.getD 0 ""
  let i := resolveIso acc disp (rcont.getD 1 "")
  (i, [("xref_CCDS", some xp)])

/-- The Ensembl partial table; None when the family is absent from the record
(the absent branch builds an all-NaN frame that the dropna guard then skips). -/
def ensTable? (rec : SwissRecord) (acc : String) (disp : Option String) : Option Table :=
  let tups := xrefTuples rec "Ensembl"
  if tups.isEmpty then none
  else some { cols := ["xref_Ensembl_protId", "xref_Ensembl_transcId", "xref_Ensembl_GeneId"],
              rows := tups.map (ensemblRow acc disp) }

/-- The RefSeq partial table; None when the family is absent. -/
def refseqTable? (rec : SwissRecord) (acc : String) (disp : Option String) : Option Table :=
  let tups := xrefTuples rec "RefSeq"
  if tups.isEmpty then none
  else some { cols := ["xref_RefSeq_protId", "xref_RefSeq_transcId"],
              rows := tups.map (refseqRow acc disp) }

/-- The CCDS partial table; None when the family is absent. -/
def ccdsTable? (rec : SwissRecord) (acc : String) (disp : Option String) : Option Table :=
  let tups := xrefTuples rec "CCDS"
  if tups.isEmpty then none
  else some { cols := ["xref_CCDS"],
              rows := tups.map (ccdsRow acc disp) }

/-! ### GO extraction (db.py `_extract_cat_go`, lines 455-489) -/

/-- The fixed evidence-code allow-list (line 464). -/
def goFlts : List String :=
  ["EXP", "IDA", "IPI", "IMP", "IGI", "IEP", "HTP", "HDA", "HMP", "HGI", "HEP",
   "IBA", "IBD", "IKR", "IRD"]

/-- Formatted GO entry (line 470): id '>' description with ';' replaced by ','
'|' evidence emitted verbatim. -/
def goFmt (rcont : List String) : String :=
  rcont.getD 0 "" ++ ">" ++ replaceSemi (rcont.getD 1 "") ++ "|" ++ rcont.getD 2 ""

/-- One step of the rcs dictionary update (lines 471-474): append ';'-separated
to an existing aspect entry, or create it. -/
def goUpd (rcs : List (String × String)) (g s : String) : List (String × String) :=
  match rcs.lookup g with
  | some p => rcs.map (fun kv => if kv.1 = g then (kv.1, p ++ ";" ++ s) else kv)
  | none => rcs ++ [(g, s)]

/-- The per-aspect dictionary built over the GO tuples in input order
(lines 466-474): aspect letter from field 1 before ':', evidence code from
field 2 before ':', only allow-listed evidence contributes. -/
def goDict (rconts : List (List String)) : List (String × String) :=
  rconts.foldl
    (fun rcs rcont =>
      if goFlts.contains (headColon (rcont.getD 2 "")) then
        goUpd rcs (headColon (rcont.getD 1 "")) (goFmt rcont)
      else rcs)
    []

/-- Value of one GO aspect column; None (NaN) when no entry survived. -/
def goAspect (rconts : List (List String)) (g : String) : Option String :=
  (goDict rconts).lookup g

/-! ### KEGG extraction and its disk cache (db.py `_extract_cat_kegg`,
lines 491-554) -/

/-- The cache directory contents: derived-text files (<id>.txt) and
raw-response files (<id>.dat), keyed by the colon-rewritten identifier. -/
structure KeggCache where
  txt : List (String × String)
  dat : List (String × String)
deriving DecidableEq

/-- re.sub('PATHWAY\s*', '', m): every occurrence of the literal followed by
its greedy whitespace run removed (fueled with one unit per consumed
character, always enough). -/
def remPathwayAux : Nat → List Char → List Char
  | _, [] => []
  | 0, l => l
  | Nat.succ n, c :: cs =>
    if "PATHWAY".data.isPrefixOf (c :: cs) then
      remPathwayAux n (((c :: cs).drop 7).dropWhile wsChar)
    else c :: remPathwayAux n cs

def remPathway (s : String) : String := ⟨remPathwayAux s.data.length s.data⟩

/-- Formatted contribution of one line of the PATHWAY block (lines 526-528 and
530-532): after tag/indent removal and strip, cut at the first whitespace run
and emit 'id>rest;'.  No ';' in the pathway name is rewritten here. -/
def keggChunk (m : String) : String :=
  let ms := splitFirstWs m
  ms.1 ++ ">" ++ ms.2 ++ ";"

/-- The line loop over the captured block (lines 524-534): a 'PATHWAY' line or
an indented continuation line contributes, any other line breaks the loop. -/
def keggProcess : List String → String
  | [] => ""
  | m :: rest =>
    if strStarts m "PATHWAY" then
      keggChunk ⟨trimWs (remPathway m).data⟩ ++ keggProcess rest
    else if strStarts m " " then
      keggChunk ⟨trimWs (trimLeftWs m.data)⟩ ++ keggProcess rest
    else ""

/-- rc as accumulated by the loop: '' for an empty response or one without a
'PATHWAY' occurrence (re.search(r'(PATHWAY\s*[\w\W]*)', record) captures from
the first occurrence to the end). -/
def keggRawDerive (record : String) : String :=
  if record = "" then ""
  else
    match findOcc "PATHWAY".data record.data with
    | none => ""
    | some block => keggProcess ((splitOnChar '\n' block).map (fun l => (⟨l⟩ : String)))

/-- The derived text: rc with its one trailing ';' removed (line 536). -/
def deriveKeggText (record : String) : String :=
  dropTrailingSemi (keggRawDerive record)

/-- One cached lookup for a pathway identifier (lines 506-538).  Returns the
derived text (None when the network fetch raised, the bare-except path that
skips the identifier), the updated cache directory, and how many network
fetches were issued (0 or 1).  The derived-text file is written only when rc
is non-empty; the raw response is written right after a successful fetch. -/
def keggLookup (net : String → Option String) (st : KeggCache) (id : String) :
    Option String × KeggCache × Nat :=
  match st.txt.lookup (replaceColonU id) with
  | some v => (some v, st, 0)
  | none =>
    match st.dat.lookup (replaceColonU id) with
    | some record =>
      (some (dropTrailingSemi (keggRawDerive record)),
       if keggRawDerive record = "" then st
       else { st with
              txt := (replaceColonU id, dropTrailingSemi (keggRawDerive record)) :: st.txt },
       0)
    | none =>
      match net id with
      | none => (none, st, 1)
      | some record =>
        (some (dropTrailingSemi (keggRawDerive record)),
         if keggRawDerive record = "" then
           { st with dat := (replaceColonU id, record) :: st.dat }
         else
           { st with
             dat := (replaceColonU id, record) :: st.dat,
             txt := (replaceColonU id, dropTrailingSemi (keggRawDerive record)) :: st.txt },
         1)

/-- The per-record loop over the KEGG tuples (lines 502-543): each identifier
is looked up with the cache threaded through; a raised fetch contributes
nothing (except: pass skips the append). -/
def keggFold (net : String → Option String) : List (List String) → KeggCache →
    List String × KeggCache × Nat
  | [], st => ([], st, 0)
  | rcont :: rest, st =>
    let r := keggLookup net st (rcont.headD "")
    let done := keggFold net rest r.2.1
    match r.1 with
    | some rc => (rc :: done.1, done.2.1, r.2.2 + done.2.2)
    | none => (done.1, done.2.1, r.2.2 + done.2.2)

/-- The cat_KEGG cell (lines 545-551): the ';'-join of the collected texts, NaN
when every identifier was skipped. -/
def keggValue (net : String → Option String) (st : KeggCache)
    (rconts : List (List String)) : Option String :=
  let rcs := (keggFold net rconts st).1
  if rcs.isEmpty then none else some (joinSemi rcs)

/-! ### PANTHER extraction (db.py `_extract_cat_panther`, lines 556-588) -/

/-- One row of the Classification Table: the composite family/subfamily id
column (df[3]) and the description column (df[4]). -/
def PantherTbl := List (String × String)

/-- The cat_PANTHER cell: for each tuple the first Classification-Table row
whose id column starts with the tuple's id, formatted as family '>'
description (subfamily suffix cut at ':', ';' in the description replaced);
the loop reassigns rcs, so only the last tuple's value survives; a missing
table or any tuple with no matching row raises, and the handler resets rcs to
'' (NaN). -/
def pantherValue (df? : Option PantherTbl) (rconts : List (List String)) : Option String :=
  match df? with
  | none => none
  | some df =>
    match rconts.foldlM (m := Option)
        (fun (_ : String) rcont =>
          (df.find? (fun row => strStarts row.1 (rcont.headD ""))).map
            (fun row => subColon row.1 ++ ">" ++ replaceSemi row.2 ++ ";"))
        "" with
    | none => none
    | some rcs => if rcs = "" then none else some (dropTrailingSemi rcs)

/-! ### Reactome extraction (db.py `_extract_cat_reactome`, lines 590-620) -/

/-- re.sub(r'\s*\[[^\]]*\]\s*$', '', s): remove one trailing bracketed
qualifier together with the whitespace around it. -/
def removeTrailingBracket (s : String) : String :=
  let t := trimRightWs s.data
  match t.getLast? with
  | some ']' =>
    let u := t.dropLast
    let afterRev := u.reverse.takeWhile (· ≠ '[')
    if u.contains '[' && !afterRev.contains ']' then
      ⟨trimRightWs ((u.reverse.drop (afterRev.length + 1)).reverse)⟩
    else s
  | _ => s

/-- re.sub(r'\s*\.\s*$', '', s): remove one trailing period and the whitespace
around it. -/
def removeTrailingDot (s : String) : String :=
  let t := trimRightWs s.data
  match t.getLast? with
  | some '.' => ⟨trimRightWs t.dropLast⟩
  | _ => s

/-- One formatted Reactome entry (lines 602-608). -/
def reactomeFmt (rcont : List String) : String :=
  let dsc := removeTrailingDot (removeTrailingBracket (joinPipe rcont.tail))
  rcont.headD "" ++ ">" ++ replaceSemi dsc

/-- The cat_Reactome cell: ';'-join of the formatted tuples. -/
def reactomeValue (rconts : List (List String)) : Option String :=
  if rconts.isEmpty then none else some (joinSemi (rconts.map reactomeFmt))

/-! ### CORUM extraction (db.py `_extract_cat_corum`, lines 622-647) -/

/-- One complex of the loaded allComplexes.json: id and name (present only
when the JSON object carries the key) and the delimited member-accession
string under 'subunits(UniProt IDs)'. -/
structure CorumComplex where
  complexId : Option Nat
  complexName : Option String
  subunits : String
deriving DecidableEq

/-- The cat_CORUM cell (lines 633-644): filter with Python's `acc in
person['subunits(UniProt IDs)']` — a substring test on the member string —
then format 'compID_<id>>name' with ';' replaced by ',' and join with ';'.
An unloaded table (None) and an empty complex list both leave rcs empty. -/
def corumValueList (l : List CorumComplex) (acc : String) : Option String :=
  let comps := l.filter (fun c => hasSub c.subunits acc)
  let parts := comps.filterMap (fun c =>
    match c.complexId, c.complexName with
    | some i, some n => some (replaceSemi ("compID_" ++ toString i ++ ">" ++ n))
    | _, _ => none)
  let rcs := if comps.isEmpty then "" else joinSemi parts
  if rcs = "" then none else some rcs

def corumValue (datatxt : Option (List CorumComplex)) (acc : String) : Option String :=
  match datatxt with
  | none => none
  | some l => corumValueList l acc

/-! ### Assembling the categorical partial tables (db.py lines 416-451) -/

/-- Build one categorical partial table from its (column, value) cells: the
dropna guard (line 445) skips an all-NaN frame; otherwise the single value row
is broadcast to every isoform id (the concat with the IsoIds column followed
by ffill, lines 447-449). -/
def mkCatTable (cells : List (String × Option String)) (iso : List String) : Option Table :=
  if cells.any (fun kv => kv.2.isSome) then
    some { cols := cells.map (·.1), rows := iso.map (fun i => (i, cells)) }
  else none

/-- The GO partial table (xpats [('cat_GO_C','C'),('cat_GO_F','F'),
('cat_GO_P','P')]); absent family means no tuples, hence all-NaN, hence
skipped. -/
def goTable? (rec : SwissRecord) (iso : List String) : Option Table :=
  let tups := xrefTuples rec "GO"
  if tups.isEmpty then none
  else mkCatTable
    [("cat_GO_C", goAspect tups "C"), ("cat_GO_F", goAspect tups "F"),
     ("cat_GO_P", goAspect tups "P")] iso

/-- The KEGG partial table. -/
def keggTable? (net : String → Option String) (st : KeggCache) (rec : SwissRecord)
    (iso : List String) : Option Table :=
  let tups := xrefTuples rec "KEGG"
  if tups.isEmpty then none
  else mkCatTable [("cat_KEGG", keggValue net st tups)] iso

/-- The PANTHER partial table. -/
def pantherTable? (df? : Option PantherTbl) (rec : SwissRecord) (iso : List String) :
    Option Table :=
  let tups := xrefTuples rec "PANTHER"
  if tups.isEmpty then none
  else mkCatTable [("cat_PANTHER", pantherValue df? tups)] iso

/-- The Reactome partial table. -/
def reactomeTable? (rec : SwissRecord) (iso : List String) : Option Table :=
  let tups := xrefTuples rec "Reactome"
  if tups.isEmpty then none
  else mkCatTable [("cat_Reactome", reactomeValue tups)] iso

/-- The CORUM partial table: the extractor only runs when the record carries a
CORUM cross-reference (the `if xdb in rcross` dispatch at line 421). -/
def corumTable? (datatxt : Option (List CorumComplex)) (rec : SwissRecord)
    (acc : String) (iso : List String) : Option Table :=
  let tups := xrefTuples rec "CORUM"
  if tups.isEmpty then none
  else mkCatTable [("cat_CORUM", corumValue datatxt acc)] iso

/-! ### The merged per-record row set (`_create_qreport` as a whole) -/

/-- The partial tables in join order: the three direct-identifier families,
then the five enabled categorical families (MIM and DrugBank are commented out
of CTERMS). -/
def partialTables (net : String → Option String) (st : KeggCache)
    (corum : Option (List CorumComplex)) (panther : Option PantherTbl)
    (rec : SwissRecord) : List (Option Table) :=
  let acc := headAcc rec
  let disp := isoDisplayed rec
  let iso := isoIds rec
  [ensTable? rec acc disp, refseqTable? rec acc disp, ccdsTable? rec acc disp,
   goTable? rec iso, keggTable? net st rec iso, pantherTable? panther rec iso,
   reactomeTable? rec iso, corumTable? corum rec acc iso]

/-- The merged per-record row set returned by `_create_qreport`: the base
metadata table outer-joined with every non-skipped partial table. -/
def createQreport (net : String → Option String) (st : KeggCache) (fasta : FastaTbl)
    (corum : Option (List CorumComplex)) (panther : Option PantherTbl)
    (rec : SwissRecord) : Table :=
  mergeAll (baseTable fasta rec) (partialTables net st corum panther rec)

/-! ### Final column completion (`to_file`, db.py lines 710-720) -/

/-- The fixed, pre-declared output column order (HEADERS, line 77). -/
def HEADERS : List String :=
  ["xref_UniProt_Name", "Protein", "Gene", "Species", "Length", "Description",
   "Comment_Line", "prot_UniProt_Class",
   "xref_Ensembl_protId", "xref_Ensembl_transcId", "xref_Ensembl_GeneId",
   "xref_RefSeq_protId", "xref_RefSeq_transcId", "xref_CCDS",
   "cat_GO_C", "cat_GO_F", "cat_GO_P", "cat_KEGG", "cat_PANTHER",
   "cat_Reactome", "cat_CORUM"]

/-- One output row of to_file: reset_index turns the isoform id into the
Protein column, every HEADERS column missing from the frame is added as NaN,
and the row is emitted in HEADERS order. -/
def finalizeRow (r : String × List (String × Option String)) : List (String × Option String) :=
  HEADERS.map (fun h =>
    (h, if h == "Protein" then some r.1 else (r.2.lookup h).join))

/-! ### Spec-modelled CORUM membership (for the refinement comparison only) -/

/-- The claim's reading of CORUM membership, following the spec's words: the
member-accession set obtained by splitting the delimited member string on ';',
with whitespace trimmed. -/
def corumSpecMembers (c : CorumComplex) : List String :=
  (splitOnChar ';' c.subunits.data).map (fun p => (⟨trimWs p⟩ : String))

/-- The claim's reading of the CORUM cell, following the spec's words: built
from exactly those complexes whose member-accession set contains the primary
accession, with the same formatting and join as the source. -/
def corumSpecValueList (l : List CorumComplex) (acc : String) : Option String :=
  let comps := l.filter (fun c => (corumSpecMembers c).contains acc)
  let parts := comps.filterMap (fun c =>
    match c.complexId, c.complexName with
    | some i, some n => some (replaceSemi ("compID_" ++ toString i ++ ">" ++ n))
    | _, _ => none)
  let rcs := if comps.isEmpty then "" else joinSemi parts
  if rcs = "" then none else some rcs

def corumSpecValue (datatxt : Option (List CorumComplex)) (acc : String) : Option String :=
  match datatxt with
  | none => none
  | some l => corumSpecValueList l acc

/-! ### Concrete inputs used by the witnesses and counterexamples -/

/-- A network that always raises. -/
def netFail : String → Option String := fun _ => none

/-- An empty cache directory. -/
def cacheEmpty : KeggCache := ⟨[], []⟩

/-- A record with two Ensembl tuples, both without a bracketed annotation, so
both rows are attributed to the primary accession. -/
def recTwoEnsembl : SwissRecord :=
  { entry_name := "TEST1_HUMAN", accessions := ["P10001"],
    gene_name := "Name=GENA;", description := "RecName: Full=Test one;",
    organism := "Homo sapiens (Human).", data_class := "Reviewed",
    comments := [],
    cross_references :=
      [("Ensembl", ["ENST00000001.1", "ENSP00000001.1", "ENSG00000001.1"]),
       ("Ensembl", ["ENST00000002.2", "ENSP00000002.2", "ENSG00000002.2"])] }

/-- A record whose single Ensembl tuple carries a bracketed isoform id that
resolves against nothing: it is not in the record's isoform-id list. -/
def recForeignBracket : SwissRecord :=
  { entry_name := "TEST2_HUMAN", accessions := ["P20001"],
    gene_name := "Name=GENB;", description := "RecName: Full=Test two;",
    organism := "Homo sapiens (Human).", data_class := "Reviewed",
    comments := [],
    cross_references :=
      [("Ensembl", ["ENST00000003.3", "ENSP00000003.3", "ENSG00000003.3. [P99999-9]"])] }

/-- A record declaring two variant-sequence isoforms besides the displayed
canonical form. -/
def recAltProducts : SwissRecord :=
  { entry_name := "TEST3_HUMAN", accessions := ["P30001"],
    gene_name := "Name=GENC;", description := "RecName: Full=Test three;",
    organism := "Homo sapiens (Human).", data_class := "Reviewed",
    comments :=
      ["ALTERNATIVE PRODUCTS:  Event=Alternative splicing; Named isoforms=3; Name=1; IsoId=P30001-1; Sequence=Displayed; Name=2; IsoId=P30001-2; Sequence=VSP_000001; Name=3; IsoId=P30001-3, P30001-9; Sequence=VSP_000002, VSP_000003;"],
    cross_references := [] }

/-- A record with no alternative-products comment at all. -/
def recNoAlt : SwissRecord :=
  { entry_name := "TEST4_HUMAN", accessions := ["P40001"],
    gene_name := "Name=GEND;", description := "RecName: Full=Test four;",
    organism := "Homo sapiens (Human).", data_class := "Reviewed",
    comments := ["FUNCTION: Does things."],
    cross_references := [] }

/-- A Complex Table whose only complex has the single member accession
'P1234': the accession 'P123' is not a member, yet occurs as a substring. -/
def corumSubstringTbl : List CorumComplex :=
  [{ complexId := some 7, complexName := some "Test;Complex", subunits := "P1234" }]

/-- A GO tuple whose evidence segment contains a literal ';'. -/
def goSemiTuple : List String := ["GO:0000001", "C:some component", "IDA:Uni;Prot"]

/-- A KEGG response with a PATHWAY block of two pathways. -/
def keggRespTwo : String :=
  "ENTRY       7248  CDS\nPATHWAY     hsa04110  Cell cycle\n            hsa04150  mTOR signaling\nDISEASE     H00409\n"

/-- A KEGG response without a PATHWAY block. -/
def keggRespNone : String := "ENTRY       7248  CDS\nORGANISM    hsa\n"

/-- The entries surviving the GO evidence filter for one aspect, in input
order, each formatted by goFmt — the direct (filter, map) characterization the
dict-building loop is compared against. -/
def goEntries (rconts : List (List String)) (g : String) : List String :=
  (rconts.filter (fun r =>
    goFlts.contains (headColon (r.getD 2 "")) && (headColon (r.getD 1 "") == g))).map goFmt

/-- A Complex Table on which substring containment and member-set containment
agree for the accession 'P111'. -/
def corumMemberTbl : List CorumComplex :=
  [{ complexId := some 7, complexName := some "Test;Complex", subunits := "P111;P222" }]

/-- The cell list of the canonical-isoform row of recAltProducts as merged by
the pipeline (no cross-reference family present, so the base cells only). -/
def rowCellsAltProducts : List (String × Option String) :=
  [("xref_UniProt_Name", some "TEST3_HUMAN"), ("Gene", some "GENC"),
   ("Species", some "Homo sapiens"), ("Length", some ""),
   ("Description", some "Test three"), ("Comment_Line", some ""),
   ("prot_UniProt_Class", some "Reviewed")]

/-- A network fetch that always answers with the two-pathway response. -/
def netTwoPathways : String → Option String := fun _ => some keggRespTwo

/-- A network fetch that always answers with the PATHWAY-free response. -/
def netNoPathway : String → Option String := fun _ => some keggRespNone

/-- Well-formedness: every row of a table carries exactly the declared
columns, in order. -/
def TWF (t : Table) : Prop :=
  ∀ r ∈ t.rows, r.2.map Prod.fst = t.cols

/-! ### General lemmas about the outer join and the merge fold -/

/-- Rows with a given key exist exactly when the pandas index-membership test
succeeds. -/
theorem countKey_pos_iff_any (t : Table) (k : String) :
    0 < countKey t k ↔ t.rows.any (fun r => r.1 == k) = true := by
  unfold countKey
  induction t.rows with
  | nil => simp
  | cons r l ih =>
    by_cases h : r.1 = k
    · simp [List.filter_cons, h]
    · simpa [List.filter_cons, h] using ih

/-- Key multiplicity in the left part of the outer join: each left row with
the key is replicated once per matching right row (at least once). -/
theorem keyCount_joinLeftRows (rows2 : List (String × List (String × Option String)))
    (cols2 : List String) (rows1 : List (String × List (String × Option String)))
    (k : String) :
    ((joinLeftRows rows2 cols2 rows1).filter (fun r => r.1 == k)).length =
      ((rows1.filter (fun r => r.1 == k)).length) *
        max ((rows2.filter (fun s => s.1 == k)).length) 1 := by
  induction rows1 with
  | nil => simp [joinLeftRows]
  | cons r l ih =>
    rcases hms : rows2.filter (fun s => s.1 == r.1) with _ | ⟨m, ms⟩
    · have hstep : joinLeftRows rows2 cols2 (r :: l) =
          (r.1, r.2 ++ nullRow cols2) :: joinLeftRows rows2 cols2 l := by
        simp [joinLeftRows, hms]
      rw [hstep]
      by_cases h : r.1 = k
      · subst h
        simp [List.filter_cons, hms, ih]
      · have hne : (r.1 == k) = false := by simp [h]
        simp [List.filter_cons, hne, ih]
    · have hstep : joinLeftRows rows2 cols2 (r :: l) =
          (m :: ms).map (fun s => (r.1, r.2 ++ s.2)) ++ joinLeftRows rows2 cols2 l := by
        simp [joinLeftRows, hms]
      rw [hstep, List.filter_append, List.length_append, ih]
      by_cases h : r.1 = k
      · subst h
        have hkeys : ((m :: ms).map (fun s => (r.1, r.2 ++ s.2))).filter
            (fun x => x.1 == r.1) = (m :: ms).map (fun s => (r.1, r.2 ++ s.2)) := by
          rw [List.filter_map]
          have hc : List.filter ((fun x => x.1 == r.1) ∘ fun s => (r.1, r.2 ++ s.2)) (m :: ms)
              = m :: ms := by
            simp [Function.comp_def]
          rw [hc]
        rw [hkeys, List.length_map, hms]
        have hmax : max (m :: ms).length 1 = (m :: ms).length := Nat.max_eq_left (by simp)
        rw [hmax]
        simp [List.filter_cons]
        ring
      · have hne : (r.1 == k) = false := by simp [h]
        have hkeys : ((m :: ms).map (fun s => (r.1, r.2 ++ s.2))).filter
            (fun x => x.1 == k) = [] := by
          rw [List.filter_map]
          have hc : List.filter ((fun x => x.1 == k) ∘ fun s => (r.1, r.2 ++ s.2)) (m :: ms)
              = [] := by
            simp [Function.comp_def, hne]
          rw [hc]
          rfl
        rw [hkeys]
        simp [List.filter_cons, hne]

/-- Key multiplicity in the right part of the outer join: zero when the left
table already carries the key, the right multiplicity otherwise. -/
theorem keyCount_joinRightRows (rows1 : List (String × List (String × Option String)))
    (cols1 : List String) (rows2 : List (String × List (String × Option String)))
    (k : String) :
    ((joinRightRows rows1 cols1 rows2).filter (fun r => r.1 == k)).length =
      if rows1.any (fun r => r.1 == k) then 0
      else (rows2.filter (fun s => s.1 == k)).length := by
  induction rows2 with
  | nil => simp [joinRightRows]
  | cons s l ih =>
    have hstep : joinRightRows rows1 cols1 (s :: l) =
        (if !(rows1.any (fun r => r.1 == s.1)) then
          [(s.1, nullRow cols1 ++ s.2)] else []) ++ joinRightRows rows1 cols1 l := by
      by_cases hq : rows1.any (fun r => r.1 == s.1) <;>
        simp [joinRightRows, List.filter_cons, hq]
    rw [hstep, List.filter_append, List.length_append, ih]
    by_cases hk : s.1 = k
    · subst hk
      by_cases hq : rows1.any (fun r => r.1 == s.1)
      · simp [hq, List.filter_cons]
      · simp [hq, List.filter_cons]
        omega
    · have hne : (s.1 == k) = false := by simp [hk]
      by_cases hq : rows1.any (fun r => r.1 == s.1)
      · simp [hq, List.filter_cons, hne]
      · simp [hq, List.filter_cons, hne]

/-- The key-multiplicity law of the pandas outer join. -/
theorem countKey_joinOuter (t1 t2 : Table) (k : String) :
    countKey (joinOuter t1 t2) k =
      if 0 < countKey t1 k then countKey t1 k * max (countKey t2 k) 1
      else countKey t2 k := by
  have hany := countKey_pos_iff_any t1 k
  unfold countKey at *
  show ((joinLeftRows t2.rows t2.cols t1.rows ++
      joinRightRows t1.rows t1.cols t2.rows).filter (fun r => r.1 == k)).length = _
  rw [List.filter_append, List.length_append, keyCount_joinLeftRows,
    keyCount_joinRightRows]
  by_cases hq : t1.rows.any (fun r => r.1 == k)
  · have hpos : 0 < (t1.rows.filter (fun r => r.1 == k)).length := hany.mpr hq
    simp [hq, hpos]
  · have hzero : ¬ 0 < (t1.rows.filter (fun r => r.1 == k)).length := fun h => hq (hany.mp h)
    have : (t1.rows.filter (fun r => r.1 == k)).length = 0 := Nat.eq_zero_of_not_pos hzero
    simp [hq, hzero, this]

/-- The outer join carries a key exactly when one of its operands does. -/
theorem countKey_joinOuter_pos_iff (t1 t2 : Table) (k : String) :
    0 < countKey (joinOuter t1 t2) k ↔ 0 < countKey t1 k ∨ 0 < countKey t2 k := by
  rw [countKey_joinOuter]
  by_cases h1 : 0 < countKey t1 k
  · rw [if_pos h1]
    constructor
    · intro _
      exact Or.inl h1
    · intro _
      exact Nat.mul_pos h1 (lt_of_lt_of_le Nat.zero_lt_one (Nat.le_max_right _ 1))
  · simp [h1]

/-- A key present in the running table or in one of the remaining partial
tables is present in the merged table. -/
theorem mergeAll_pos (k : String) :
    ∀ (ts : List (Option Table)) (t : Table),
      0 < countKey t k ∨ (∃ u, some u ∈ ts ∧ 0 < countKey u k) →
      0 < countKey (mergeAll t ts) k := by
  intro ts
  induction ts with
  | nil =>
    intro t h
    rcases h with h | ⟨u, hu, _⟩
    · simpa [mergeAll] using h
    · simp at hu
  | cons t? rest ih =>
    intro t h
    cases t? with
    | none =>
      apply ih
      rcases h with h | ⟨u, hu, hpos⟩
      · exact Or.inl h
      · rcases List.mem_cons.mp hu with h' | h'
        · cases h'
        · exact Or.inr ⟨u, h', hpos⟩
    | some u₀ =>
      show 0 < countKey (mergeAll (joinOuter t u₀) rest) k
      apply ih
      rcases h with h | ⟨u, hu, hpos⟩
      · exact Or.inl ((countKey_joinOuter_pos_iff t u₀ k).mpr (Or.inl h))
      · rcases List.mem_cons.mp hu with h' | h'
        · have heq : u = u₀ := by injection h'
          subst heq
          exact Or.inl ((countKey_joinOuter_pos_iff t u k).mpr (Or.inr hpos))
        · exact Or.inr ⟨u, h', hpos⟩

/-- When every remaining partial table carries a key at most once, a table
carrying it exactly once keeps carrying it exactly once through the merge. -/
theorem mergeAll_count_one (k : String) :
    ∀ (ts : List (Option Table)) (t : Table),
      countKey t k = 1 → (∀ t? ∈ ts, countKeyO t? k ≤ 1) →
      countKey (mergeAll t ts) k = 1 := by
  intro ts
  induction ts with
  | nil => intro t h _; simpa [mergeAll] using h
  | cons t? rest ih =>
    intro t h hb
    cases t? with
    | none =>
      exact ih t h (fun u hu => hb u (List.mem_cons_of_mem _ hu))
    | some u₀ =>
      show countKey (mergeAll (joinOuter t u₀) rest) k = 1
      apply ih
      · rw [countKey_joinOuter, h]
        have hle : countKey u₀ k ≤ 1 := by
          simpa [countKeyO] using hb (some u₀) (List.mem_cons_self _ _)
        have : max (countKey u₀ k) 1 = 1 := Nat.max_eq_right hle
        simp [this]
      · exact fun u hu => hb u (List.mem_cons_of_mem _ hu)

theorem nullRow_keys (cols : List String) : (nullRow cols).map Prod.fst = cols := by
  unfold nullRow
  rw [List.map_map]
  simp [Function.comp_def]

theorem joinOuter_TWF {t1 t2 : Table} (h1 : TWF t1) (h2 : TWF t2) :
    TWF (joinOuter t1 t2) := by
  intro r hr
  rcases List.mem_append.mp hr with hl | hrr
  · rcases List.mem_flatMap.mp hl with ⟨a, ha, hb⟩
    rcases hms : t2.rows.filter (fun s => s.1 == a.1) with _ | ⟨m, ms⟩
    · rw [hms] at hb
      simp at hb
      subst hb
      show ((a.2 ++ nullRow t2.cols).map Prod.fst) = t1.cols ++ t2.cols
      rw [List.map_append, h1 a ha, nullRow_keys]
    · rw [hms] at hb
      rcases List.mem_map.mp hb with ⟨s, hs, rfl⟩
      have hs2 : s ∈ t2.rows := List.mem_of_mem_filter (hms ▸ hs)
      show ((a.2 ++ s.2).map Prod.fst) = t1.cols ++ t2.cols
      rw [List.map_append, h1 a ha, h2 s hs2]
  · rcases List.mem_map.mp hrr with ⟨s, hs, rfl⟩
    have hs2 : s ∈ t2.rows := List.mem_of_mem_filter hs
    show ((nullRow t1.cols ++ s.2).map Prod.fst) = t1.cols ++ t2.cols
    rw [List.map_append, nullRow_keys, h2 s hs2]

theorem mergeAll_TWF :
    ∀ (ts : List (Option Table)) (t : Table),
      TWF t → (∀ u, some u ∈ ts → TWF u) → TWF (mergeAll t ts) := by
  intro ts
  induction ts with
  | nil => intro t ht _; simpa [mergeAll] using ht
  | cons t? rest ih =>
    intro t ht hts
    cases t? with
    | none => exact ih t ht (fun u hu => hts u (List.mem_cons_of_mem _ hu))
    | some u₀ =>
      show TWF (mergeAll (joinOuter t u₀) rest)
      exact ih _ (joinOuter_TWF ht (hts u₀ (List.mem_cons_self _ _)))
        (fun u hu => hts u (List.mem_cons_of_mem _ hu))

/-- The merged column list is the base columns followed by the columns of the
joined (non-skipped) partial tables. -/
theorem mergeAll_cols_mem (c : String) :
    ∀ (ts : List (Option Table)) (t : Table),
      (c ∈ (mergeAll t ts).cols ↔ c ∈ t.cols ∨ ∃ u, some u ∈ ts ∧ c ∈ u.cols) := by
  intro ts
  induction ts with
  | nil => intro t; simp [mergeAll]
  | cons t? rest ih =>
    intro t
    cases t? with
    | none =>
      show (c ∈ (mergeAll t rest).cols ↔ _)
      rw [ih]
      constructor
      · rintro (h | ⟨u, hu, hc⟩)
        · exact Or.inl h
        · exact Or.inr ⟨u, List.mem_cons_of_mem _ hu, hc⟩
      · rintro (h | ⟨u, hu, hc⟩)
        · exact Or.inl h
        · rcases List.mem_cons.mp hu with h' | h'
          · cases h'
          · exact Or.inr ⟨u, h', hc⟩
    | some u₀ =>
      show (c ∈ (mergeAll (joinOuter t u₀) rest).cols ↔ _)
      rw [ih]
      have hj : c ∈ (joinOuter t u₀).cols ↔ c ∈ t.cols ∨ c ∈ u₀.cols := by
        simp [joinOuter]
      rw [hj]
      constructor
      · rintro ((h | h) | ⟨u, hu, hc⟩)
        · exact Or.inl h
        · exact Or.inr ⟨u₀, List.mem_cons_self _ _, h⟩
        · exact Or.inr ⟨u, List.mem_cons_of_mem _ hu, hc⟩
      · rintro (h | ⟨u, hu, hc⟩)
        · exact Or.inl (Or.inl h)
        · rcases List.mem_cons.mp hu with h' | h'
          · have heq : u = u₀ := by injection h'
            subst heq
            exact Or.inl (Or.inr hc)
          · exact Or.inr ⟨u, h', hc⟩

/-! Row-content invariants through the merge: cells of the running table are
only ever extended on the right, and rows keyed by an id the running table
already carries never come from the right-only part of a join. -/

theorem lookup_append_some {β : Type} {l1 l2 : List (String × β)} {a : String}
    {v : β} (h : l1.lookup a = some v) : (l1 ++ l2).lookup a = some v := by
  induction l1 with
  | nil => simp [List.lookup] at h
  | cons kv l ih =>
    rcases kv with ⟨key, w⟩
    by_cases hk : a == key
    · simpa [List.lookup, hk] using h
    · have h' : l.lookup a = some v := by
        simpa [List.lookup, hk] using h
      simpa [List.lookup, hk] using ih h'

theorem lookup_append_none {β : Type} {l1 : List (String × β)} {a : String}
    (h : l1.lookup a = none) (l2 : List (String × β)) :
    (l1 ++ l2).lookup a = l2.lookup a := by
  induction l1 with
  | nil => simp
  | cons kv l ih =>
    rcases kv with ⟨key, w⟩
    by_cases hk : a == key
    · simp [List.lookup, hk] at h
    · have h' : l.lookup a = none := by
        simpa [List.lookup, hk] using h
      simpa [List.lookup, hk] using ih h'

/-- Preservation of a per-row property (stable under extending the cell list on
the right) for all rows keyed inside a key set the table covers. -/
theorem joinOuter_row_inv (ids : List String)
    (P : List (String × Option String) → Prop)
    (hP : ∀ l x, P l → P (l ++ x)) (t1 t2 : Table)
    (hcov : ∀ id ∈ ids, 0 < countKey t1 id)
    (hrows : ∀ r ∈ t1.rows, r.1 ∈ ids → P r.2) :
    (∀ id ∈ ids, 0 < countKey (joinOuter t1 t2) id) ∧
      (∀ r ∈ (joinOuter t1 t2).rows, r.1 ∈ ids → P r.2) := by
  constructor
  · intro id hid
    exact (countKey_joinOuter_pos_iff t1 t2 id).mpr (Or.inl (hcov id hid))
  · intro r hr hrid
    rcases List.mem_append.mp hr with hl | hrr
    · rcases List.mem_flatMap.mp hl with ⟨a, ha, hb⟩
      rcases hms : t2.rows.filter (fun s => s.1 == a.1) with _ | ⟨m, ms⟩
      · rw [hms] at hb
        simp at hb
        subst hb
        exact hP _ _ (hrows a ha hrid)
      · rw [hms] at hb
        rcases List.mem_map.mp hb with ⟨s, _, rfl⟩
        exact hP _ _ (hrows a ha hrid)
    · rcases List.mem_map.mp hrr with ⟨s, hs, rfl⟩
      have hq := List.of_mem_filter hs
      have hnot : t1.rows.any (fun r => r.1 == s.1) = false := by
        revert hq
        cases t1.rows.any (fun r => r.1 == s.1) <;> simp
      have hpos := (countKey_pos_iff_any t1 s.1).mp (hcov s.1 hrid)
      rw [hnot] at hpos
      cases hpos

/-- A row present in a table makes its key count positive. -/
theorem countKey_pos_of_mem {t : Table} {r : String × List (String × Option String)}
    {k : String} (hr : r ∈ t.rows) (hk : r.1 = k) : 0 < countKey t k := by
  unfold countKey
  have hmem : r ∈ t.rows.filter (fun x => x.1 == k) :=
    List.mem_filter.mpr ⟨hr, by simp [hk]⟩
  exact List.length_pos.mpr (List.ne_nil_of_mem hmem)

/-- The base table counts a key as often as the isoform-id list contains it. -/
theorem countKey_baseTable (fasta : FastaTbl) (rec : SwissRecord) (k : String) :
    countKey (baseTable fasta rec) k = ((isoIds rec).filter (fun i => i == k)).length := by
  unfold countKey baseTable
  rw [List.filter_map, List.length_map]
  congr 1

theorem countKey_baseTable_pos {fasta : FastaTbl} {rec : SwissRecord} {k : String}
    (h : k ∈ isoIds rec) : 0 < countKey (baseTable fasta rec) k := by
  rw [countKey_baseTable]
  have hmem : k ∈ (isoIds rec).filter (fun i => i == k) :=
    List.mem_filter.mpr ⟨h, by simp⟩
  exact List.length_pos.mpr (List.ne_nil_of_mem hmem)

theorem countKey_baseTable_one {fasta : FastaTbl} {rec : SwissRecord} {k : String}
    (h : k ∈ isoIds rec) (hnd : (isoIds rec).Nodup) :
    countKey (baseTable fasta rec) k = 1 := by
  rw [countKey_baseTable]
  simpa [List.count, List.countP_eq_length_filter] using List.count_eq_one_of_mem hnd h

/-- The base table is well-formed. -/
theorem baseTable_TWF (fasta : FastaTbl) (rec : SwissRecord) : TWF (baseTable fasta rec) := by
  intro r hr
  rcases List.mem_map.mp hr with ⟨i, _, rfl⟩
  rfl

/-- Shape of a built categorical partial table. -/
theorem mkCatTable_some {cells : List (String × Option String)} {iso : List String}
    {t : Table} (h : mkCatTable cells iso = some t) :
    t.cols = cells.map Prod.fst ∧ t.rows = iso.map (fun i => (i, cells)) := by
  unfold mkCatTable at h
  by_cases hc : cells.any (fun kv => kv.2.isSome)
  · rw [if_pos hc] at h
    injection h with h'
    subst h'
    exact ⟨rfl, rfl⟩
  · rw [if_neg hc] at h
    cases h

theorem mkCatTable_TWF {cells : List (String × Option String)} {iso : List String}
    {t : Table} (h : mkCatTable cells iso = some t) : TWF t := by
  obtain ⟨hc, hr⟩ := mkCatTable_some h
  intro r hrmem
  rw [hr] at hrmem
  rcases List.mem_map.mp hrmem with ⟨i, _, rfl⟩
  rw [hc]

/-- Shape of the Ensembl partial table when it is joined. -/
theorem ensTable?_some {rec : SwissRecord} {acc : String} {disp : Option String}
    {t : Table} (h : ensTable? rec acc disp = some t) :
    t.cols = ["xref_Ensembl_protId", "xref_Ensembl_transcId", "xref_Ensembl_GeneId"] ∧
      t.rows = (xrefTuples rec "Ensembl").map (ensemblRow acc disp) := by
  unfold ensTable? at h
  by_cases he : (xrefTuples rec "Ensembl").isEmpty
  · rw [if_pos he] at h
    cases h
  · rw [if_neg he] at h
    injection h with h'
    subst h'
    exact ⟨rfl, rfl⟩

theorem refseqTable?_some {rec : SwissRecord} {acc : String} {disp : Option String}
    {t : Table} (h : refseqTable? rec acc disp = some t) :
    t.cols = ["xref_RefSeq_protId", "xref_RefSeq_transcId"] ∧
      t.rows = (xrefTuples rec "RefSeq").map (refseqRow acc disp) := by
  unfold refseqTable? at h
  by_cases he : (xrefTuples rec "RefSeq").isEmpty
  · rw [if_pos he] at h
    cases h
  · rw [if_neg he] at h
    injection h with h'
    subst h'
    exact ⟨rfl, rfl⟩

theorem ccdsTable?_some {rec : SwissRecord} {acc : String} {disp : Option String}
    {t : Table} (h : ccdsTable? rec acc disp = some t) :
    t.cols = ["xref_CCDS"] ∧ t.rows = (xrefTuples rec "CCDS").map (ccdsRow acc disp) := by
  unfold ccdsTable? at h
  by_cases he : (xrefTuples rec "CCDS").isEmpty
  · rw [if_pos he] at h
    cases h
  · rw [if_neg he] at h
    injection h with h'
    subst h'
    exact ⟨rfl, rfl⟩

theorem ensTable?_TWF {rec : SwissRecord} {acc : String} {disp : Option String}
    {t : Table} (h : ensTable? rec acc disp = some t) : TWF t := by
  obtain ⟨hc, hr⟩ := ensTable?_some h
  intro r hrmem
  rw [hr] at hrmem
  rcases List.mem_map.mp hrmem with ⟨tup, _, rfl⟩
  rw [hc]
  rfl

theorem refseqTable?_TWF {rec : SwissRecord} {acc : String} {disp : Option String}
    {t : Table} (h : refseqTable? rec acc disp = some t) : TWF t := by
  obtain ⟨hc, hr⟩ := refseqTable?_some h
  intro r hrmem
  rw [hr] at hrmem
  rcases List.mem_map.mp hrmem with ⟨tup, _, rfl⟩
  rw [hc]
  rfl

theorem ccdsTable?_TWF {rec : SwissRecord} {acc : String} {disp : Option String}
    {t : Table} (h : ccdsTable? rec acc disp = some t) : TWF t := by
  obtain ⟨hc, hr⟩ := ccdsTable?_some h
  intro r hrmem
  rw [hr] at hrmem
  rcases List.mem_map.mp hrmem with ⟨tup, _, rfl⟩
  rw [hc]
  rfl

theorem goTable?_TWF {rec : SwissRecord} {iso : List String} {t : Table}
    (h : goTable? rec iso = some t) : TWF t := by
  unfold goTable? at h
  by_cases he : (xrefTuples rec "GO").isEmpty
  · rw [if_pos he] at h
    cases h
  · rw [if_neg he] at h
    exact mkCatTable_TWF h

theorem keggTable?_TWF {net : String → Option String} {st : KeggCache}
    {rec : SwissRecord} {iso : List String} {t : Table}
    (h : keggTable? net st rec iso = some t) : TWF t := by
  unfold keggTable? at h
  by_cases he : (xrefTuples rec "KEGG").isEmpty
  · rw [if_pos he] at h
    cases h
  · rw [if_neg he] at h
    exact mkCatTable_TWF h

theorem pantherTable?_TWF {df? : Option PantherTbl} {rec : SwissRecord}
    {iso : List String} {t : Table} (h : pantherTable? df? rec iso = some t) : TWF t := by
  unfold pantherTable? at h
  by_cases he : (xrefTuples rec "PANTHER").isEmpty
  · rw [if_pos he] at h
    cases h
  · rw [if_neg he] at h
    exact mkCatTable_TWF h

theorem reactomeTable?_TWF {rec : SwissRecord} {iso : List String} {t : Table}
    (h : reactomeTable? rec iso = some t) : TWF t := by
  unfold reactomeTable? at h
  by_cases he : (xrefTuples rec "Reactome").isEmpty
  · rw [if_pos he] at h
    cases h
  · rw [if_neg he] at h
    exact mkCatTable_TWF h

theorem corumTable?_TWF {datatxt : Option (List CorumComplex)} {rec : SwissRecord}
    {acc : String} {iso : List String} {t : Table}
    (h : corumTable? datatxt rec acc iso = some t) : TWF t := by
  unfold corumTable? at h
  by_cases he : (xrefTuples rec "CORUM").isEmpty
  · rw [if_pos he] at h
    cases h
  · rw [if_neg he] at h
    exact mkCatTable_TWF h

theorem goTable?_none {rec : SwissRecord} {iso : List String}
    (hgo : xrefTuples rec "GO" = []) : goTable? rec iso = none := by
  unfold goTable?
  rw [hgo]
  rfl

theorem keggTable?_cols {net : String → Option String} {st : KeggCache}
    {rec : SwissRecord} {iso : List String} {t : Table}
    (h : keggTable? net st rec iso = some t) : t.cols = ["cat_KEGG"] := by
  unfold keggTable? at h
  by_cases he : (xrefTuples rec "KEGG").isEmpty
  · rw [if_pos he] at h
    cases h
  · rw [if_neg he] at h
    exact (mkCatTable_some h).1

theorem pantherTable?_cols {df? : Option PantherTbl} {rec : SwissRecord}
    {iso : List String} {t : Table} (h : pantherTable? df? rec iso = some t) :
    t.cols = ["cat_PANTHER"] := by
  unfold pantherTable? at h
  by_cases he : (xrefTuples rec "PANTHER").isEmpty
  · rw [if_pos he] at h
    cases h
  · rw [if_neg he] at h
    exact (mkCatTable_some h).1

theorem reactomeTable?_cols {rec : SwissRecord} {iso : List String} {t : Table}
    (h : reactomeTable? rec iso = some t) : t.cols = ["cat_Reactome"] := by
  unfold reactomeTable? at h
  by_cases he : (xrefTuples rec "Reactome").isEmpty
  · rw [if_pos he] at h
    cases h
  · rw [if_neg he] at h
    exact (mkCatTable_some h).1

theorem corumTable?_cols {datatxt : Option (List CorumComplex)} {rec : SwissRecord}
    {acc : String} {iso : List String} {t : Table}
    (h : corumTable? datatxt rec acc iso = some t) : t.cols = ["cat_CORUM"] := by
  unfold corumTable? at h
  by_cases he : (xrefTuples rec "CORUM").isEmpty
  · rw [if_pos he] at h
    cases h
  · rw [if_neg he] at h
    exact (mkCatTable_some h).1

/-- When the GO family is absent, none of the merged columns can be a GO
column: the base columns lack it and every other partial table owns disjoint
column names. -/
theorem goCol_not_in_merged (net : String → Option String) (st : KeggCache)
    (fasta : FastaTbl) (corum : Option (List CorumComplex)) (panther : Option PantherTbl)
    (rec : SwissRecord) (hgo : xrefTuples rec "GO" = []) (c : String)
    (hmc : c ∉ metaCols)
    (h1 : c ∉ ["xref_Ensembl_protId", "xref_Ensembl_transcId", "xref_Ensembl_GeneId"])
    (h2 : c ∉ ["xref_RefSeq_protId", "xref_RefSeq_transcId"])
    (h3 : c ∉ ["xref_CCDS"]) (h4 : c ∉ ["cat_KEGG"]) (h5 : c ∉ ["cat_PANTHER"])
    (h6 : c ∉ ["cat_Reactome"]) (h7 : c ∉ ["cat_CORUM"]) :
    c ∉ (createQreport net st fasta corum panther rec).cols := by
  intro hc
  have hc2 : c ∈ (mergeAll (baseTable fasta rec)
      (partialTables net st corum panther rec)).cols := hc
  rw [mergeAll_cols_mem] at hc2
  rcases hc2 with h | ⟨u, hu, hcu⟩
  · exact hmc h
  · simp only [partialTables, List.mem_cons, List.not_mem_nil, or_false] at hu
    rcases hu with h' | h' | h' | h' | h' | h' | h' | h'
    · rw [(ensTable?_some h'.symm).1] at hcu
      exact h1 hcu
    · rw [(refseqTable?_some h'.symm).1] at hcu
      exact h2 hcu
    · rw [(ccdsTable?_some h'.symm).1] at hcu
      exact h3 hcu
    · rw [goTable?_none hgo] at h'
      cases h'
    · rw [keggTable?_cols h'.symm] at hcu
      exact h4 hcu
    · rw [pantherTable?_cols h'.symm] at hcu
      exact h5 hcu
    · rw [reactomeTable?_cols h'.symm] at hcu
      exact h6 hcu
    · rw [corumTable?_cols h'.symm] at hcu
      exact h7 hcu

/-- takeWhile stops exactly at the first failing element after an all-passing
block. -/
theorem takeWhile_append_stop {p : Char → Bool} :
    ∀ (l1 : List Char) (x : Char) (l2 : List Char),
      (∀ c ∈ l1, p c = true) → p x = false →
      (l1 ++ x :: l2).takeWhile p = l1 := by
  intro l1
  induction l1 with
  | nil =>
    intro x l2 _ hx
    simp [List.takeWhile_cons, hx]
  | cons c cs ih =>
    intro x l2 hall hx
    have hc : p c = true := hall c (List.mem_cons_self c cs)
    simp [List.takeWhile_cons, hc,
      ih x l2 (fun d hd => hall d (List.mem_cons_of_mem _ hd)) hx]

/-- Every joined partial table is well-formed. -/
theorem partialTables_TWF (net : String → Option String) (st : KeggCache)
    (corum : Option (List CorumComplex)) (panther : Option PantherTbl)
    (rec : SwissRecord) :
    ∀ u, some u ∈ partialTables net st corum panther rec → TWF u := by
  intro u hu
  simp only [partialTables, List.mem_cons, List.not_mem_nil, or_false] at hu
  rcases hu with h | h | h | h | h | h | h | h
  · exact ensTable?_TWF h.symm
  · exact refseqTable?_TWF h.symm
  · exact ccdsTable?_TWF h.symm
  · exact goTable?_TWF h.symm
  · exact keggTable?_TWF h.symm
  · exact pantherTable?_TWF h.symm
  · exact reactomeTable?_TWF h.symm
  · exact corumTable?_TWF h.symm

/-- The finalized output row always carries the full declared column list. -/
theorem finalizeRow_keys (r : String × List (String × Option String)) :
    (finalizeRow r).map Prod.fst = HEADERS := by
  unfold finalizeRow
  rw [List.map_map]
  simp [Function.comp_def]

/-! Structure of the derived KEGG text: every contributing line emits a chunk
of the form id '>' rest ';', so a non-empty raw derivation keeps at least one
character after the trailing ';' is stripped — the guard `if rc != ''` writes
only non-empty derived-text files. -/

theorem keggChunk_length (m : String) : 2 ≤ (keggChunk m).length := by
  unfold keggChunk
  have h1 : ∀ (a b : String), (a ++ b).length = a.length + b.length :=
    fun a b => String.length_append a b
  simp only [h1]
  have h2 : (">" : String).length = 1 := rfl
  have h3 : (";" : String).length = 1 := rfl
  omega

theorem keggProcess_empty_or_long (ls : List String) :
    keggProcess ls = "" ∨ 2 ≤ (keggProcess ls).length := by
  induction ls with
  | nil => exact Or.inl rfl
  | cons m rest ih =>
    unfold keggProcess
    by_cases h1 : strStarts m "PATHWAY"
    · rw [if_pos h1]
      right
      have hc := keggChunk_length ⟨trimWs (remPathway m).data⟩
      rw [String.length_append]
      omega
    · rw [if_neg h1]
      by_cases h2 : strStarts m " "
      · rw [if_pos h2]
        right
        have hc := keggChunk_length ⟨trimWs (trimLeftWs m.data)⟩
        rw [String.length_append]
        omega
      · rw [if_neg h2]
        exact Or.inl rfl

theorem keggRawDerive_long {record : String} (h : keggRawDerive record ≠ "") :
    2 ≤ (keggRawDerive record).length := by
  unfold keggRawDerive at h ⊢
  by_cases hr : record = ""
  · rw [if_pos hr] at h
    exact absurd rfl h
  · rw [if_neg hr] at h ⊢
    rcases hf : findOcc "PATHWAY".data record.data with _ | block
    · rw [hf] at h
      exact absurd rfl h
    · rw [hf] at h
      rcases keggProcess_empty_or_long
        ((splitOnChar '\n' block).map (fun l => (⟨l⟩ : String))) with he | hl
      · exact absurd he h
      · exact hl

theorem dropTrailingSemi_ne_empty {s : String} (h : 2 ≤ s.length) :
    dropTrailingSemi s ≠ "" := by
  unfold dropTrailingSemi
  by_cases hl : s.data.getLast? = some ';'
  · rw [if_pos hl]
    intro hcontra
    have hdata : s.data.dropLast = [] := congrArg String.data hcontra
    have hlen : s.data.length - 1 = 0 := by
      rw [← List.length_dropLast, hdata]
      rfl
    have hslen : s.length = s.data.length := rfl
    omega
  · rw [if_neg hl]
    intro hcontra
    rw [hcontra] at h
    exact absurd h (by decide)

theorem keggDerived_ne_empty {record : String} (h : keggRawDerive record ≠ "") :
    dropTrailingSemi (keggRawDerive record) ≠ "" :=
  dropTrailingSemi_ne_empty (keggRawDerive_long h)

/-- A response without a 'PATHWAY' occurrence derives to the empty string. -/
theorem keggRawDerive_of_no_pathway {record : String}
    (h : hasSub record "PATHWAY" = false) : keggRawDerive record = "" := by
  unfold keggRawDerive
  by_cases hr : record = ""
  · rw [if_pos hr]
  · rw [if_neg hr]
    unfold hasSub at h
    rcases hf : findOcc "PATHWAY".data record.data with _ | block
    · rfl
    · rw [hf] at h
      simp at h

/-! The GO dictionary loop versus its (filter, map, join) characterization. -/

theorem joinSemi_cons_cons (a b : String) (l : List String) :
    joinSemi ((a ++ ";" ++ b) :: l) = joinSemi (a :: b :: l) := by
  cases l with
  | nil => rfl
  | cons c cs => simp [joinSemi, String.append_assoc]

theorem lookup_cons_self {β : Type} (k : String) (v : β) (l : List (String × β)) :
    List.lookup k ((k, v) :: l) = some v := by
  simp [List.lookup]

theorem lookup_cons_ne {β : Type} {a k : String} (v : β) (l : List (String × β))
    (h : (a == k) = false) : List.lookup a ((k, v) :: l) = List.lookup a l := by
  simp [List.lookup, h]

theorem lookup_map_update (l : List (String × String)) (g pnew : String) :
    ∀ p, l.lookup g = some p →
      (l.map (fun kv => if kv.1 = g then (kv.1, pnew) else kv)).lookup g = some pnew := by
  induction l with
  | nil =>
    intro p h
    simp [List.lookup] at h
  | cons kv l ih =>
    intro p h
    rcases kv with ⟨key, w⟩
    by_cases hk : key = g
    · subst hk
      rw [List.map_cons]
      have hite : (if (key, w).1 = key then ((key, w).1, pnew) else (key, w))
          = ((key, w).1, pnew) := if_pos rfl
      rw [hite]
      exact lookup_cons_self key pnew _
    · have hk3 : (g == key) = false := beq_eq_false_iff_ne.mpr (Ne.symm hk)
      have h' : l.lookup g = some p := by
        rw [lookup_cons_ne w l hk3] at h
        exact h
      rw [List.map_cons]
      have hite : (if (key, w).1 = g then ((key, w).1, pnew) else (key, w))
          = (key, w) := if_neg hk
      rw [hite, lookup_cons_ne w _ hk3]
      exact ih p h'

theorem lookup_map_update_other (l : List (String × String)) (g g2 pnew : String)
    (hne : g2 ≠ g) :
    (l.map (fun kv => if kv.1 = g then (kv.1, pnew) else kv)).lookup g2 = l.lookup g2 := by
  induction l with
  | nil => simp
  | cons kv l ih =>
    rcases kv with ⟨key, w⟩
    rw [List.map_cons]
    by_cases hk : key = g
    · subst hk
      have h2 : (g2 == key) = false := beq_eq_false_iff_ne.mpr hne
      have hite : (if (key, w).1 = key then ((key, w).1, pnew) else (key, w))
          = ((key, w).1, pnew) := if_pos rfl
      rw [hite, lookup_cons_ne pnew _ h2, lookup_cons_ne w l h2]
      exact ih
    · have hite : (if (key, w).1 = g then ((key, w).1, pnew) else (key, w))
          = (key, w) := if_neg hk
      rw [hite]
      by_cases hkk : g2 = key
      · subst hkk
        rw [lookup_cons_self g2 w _, lookup_cons_self g2 w l]
      · have hk4 : (g2 == key) = false := beq_eq_false_iff_ne.mpr hkk
        rw [lookup_cons_ne w _ hk4, lookup_cons_ne w l hk4]
        exact ih

theorem goUpd_lookup_same (acc : List (String × String)) (g s : String) :
    (goUpd acc g s).lookup g =
      some (match acc.lookup g with
            | some p => p ++ ";" ++ s
            | none => s) := by
  unfold goUpd
  rcases hl : acc.lookup g with _ | p
  · rw [lookup_append_none hl]
    simp [List.lookup]
  · exact lookup_map_update acc g (p ++ ";" ++ s) p hl

theorem goUpd_lookup_other (acc : List (String × String)) (g g2 s : String)
    (hne : g2 ≠ g) : (goUpd acc g s).lookup g2 = acc.lookup g2 := by
  unfold goUpd
  rcases hl : acc.lookup g with _ | p
  · rcases hl2 : acc.lookup g2 with _ | q
    · rw [lookup_append_none hl2]
      simp [List.lookup, beq_eq_false_iff_ne.mpr hne]
    · exact lookup_append_some hl2
  · exact lookup_map_update_other acc g g2 (p ++ ";" ++ s) hne

/-- Value of one aspect after folding the GO tuples over an arbitrary starting
dictionary. -/
theorem goDict_lookup_general (g : String) :
    ∀ (rconts : List (List String)) (acc : List (String × String)),
      (rconts.foldl (fun rcs rcont =>
          if goFlts.contains (headColon (rcont.getD 2 "")) then
            goUpd rcs (headColon (rcont.getD 1 "")) (goFmt rcont)
          else rcs) acc).lookup g =
        match acc.lookup g with
        | some p => some (joinSemi (p :: goEntries rconts g))
        | none =>
          if (goEntries rconts g).isEmpty then none
          else some (joinSemi (goEntries rconts g)) := by
  intro rconts
  induction rconts with
  | nil =>
    intro acc
    rcases hl : acc.lookup g with _ | p <;> simp [goEntries, joinSemi, hl]
  | cons r rest ih =>
    intro acc
    rw [List.foldl_cons]
    by_cases hkeep : goFlts.contains (headColon (r.getD 2 ""))
    · rw [if_pos hkeep]
      by_cases hg : headColon (r.getD 1 "") = g
      · rw [hg]
        have hb : (headColon (r.getD 1 "") == g) = true := by
          rw [hg]
          exact beq_self_eq_true g
        have hc : (goFlts.contains (headColon (r.getD 2 "")) &&
            (headColon (r.getD 1 "") == g)) = true := by
          rw [hkeep, hb]
          rfl
        have hent : goEntries (r :: rest) g = goFmt r :: goEntries rest g := by
          unfold goEntries
          rw [List.filter_cons, if_pos hc, List.map_cons]
        rw [ih (goUpd acc g (goFmt r)), goUpd_lookup_same, hent]
        rcases hl : acc.lookup g with _ | p
        · simp
        · simp [joinSemi_cons_cons]
      · have hb : (headColon (r.getD 1 "") == g) = false := beq_eq_false_iff_ne.mpr hg
        have hc : (goFlts.contains (headColon (r.getD 2 "")) &&
            (headColon (r.getD 1 "") == g)) = false := by
          rw [hb, Bool.and_false]
        have hent : goEntries (r :: rest) g = goEntries rest g := by
          unfold goEntries
          rw [List.filter_cons, if_neg (ne_true_of_eq_false hc)]
        rw [ih (goUpd acc (headColon (r.getD 1 "")) (goFmt r)),
          goUpd_lookup_other acc (headColon (r.getD 1 "")) g (goFmt r)
            (fun hh => hg hh.symm), hent]
    · rw [if_neg hkeep]
      have hcont : goFlts.contains (headColon (r.getD 2 "")) = false := by
        revert hkeep
        cases goFlts.contains (headColon (r.getD 2 "")) <;> simp
      have hc : (goFlts.contains (headColon (r.getD 2 "")) &&
          (headColon (r.getD 1 "") == g)) = false := by
        rw [hcont, Bool.false_and]
      have hent : goEntries (r :: rest) g = goEntries rest g := by
        unfold goEntries
        rw [List.filter_cons, if_neg (ne_true_of_eq_false hc)]
      rw [ih acc, hent]

/-- The same preservation through the whole merge fold. -/
theorem mergeAll_row_inv (ids : List String)
    (P : List (String × Option String) → Prop)
    (hP : ∀ l x, P l → P (l ++ x)) :
    ∀ (ts : List (Option Table)) (t : Table),
      (∀ id ∈ ids, 0 < countKey t id) →
      (∀ r ∈ t.rows, r.1 ∈ ids → P r.2) →
      ∀ r ∈ (mergeAll t ts).rows, r.1 ∈ ids → P r.2 := by
  intro ts
  induction ts with
  | nil => intro t _ hrows; simpa [mergeAll] using hrows
  | cons t? rest ih =>
    intro t hcov hrows
    cases t? with
    | none => exact ih t hcov hrows
    | some u₀ =>
      show ∀ r ∈ (mergeAll (joinOuter t u₀) rest).rows, r.1 ∈ ids → P r.2
      have h := joinOuter_row_inv ids P hP t u₀ hcov hrows
      exact ih _ h.1 h.2

/-! ### Claim C1 — outer-join multiplicity -/

/-- C1, counterexample: for the record with two Ensembl tuples attributed to
the same isoform id, the merged row set has two rows for that id, not exactly
one, refuting the claim at this input. -/
theorem c1_counterexample :
    "P10001" ∈ isoIds recTwoEnsembl ∧
      countKey (createQreport netFail cacheEmpty [] none none recTwoEnsembl) "P10001" ≠ 1 ∧
      countKey (createQreport netFail cacheEmpty [] none none recTwoEnsembl) "P10001" = 2 := by
  decide

/-- C1 (amended): for every isoform id of the base table the merged row set
contains at least one row; it contains exactly one row when the isoform-id
list has no duplicates and every joined partial table carries that id at most
once (a direct-identifier family contributing several tuples for one isoform
id multiplies that id's rows instead); and every merged row carries every
column of the merged schema. -/
theorem c1_join_multiplicity (net : String → Option String) (st : KeggCache)
    (fasta : FastaTbl) (corum : Option (List CorumComplex)) (panther : Option PantherTbl)
    (rec : SwissRecord) (id : String) (hid : id ∈ isoIds rec) :
    0 < countKey (createQreport net st fasta corum panther rec) id ∧
      ((isoIds rec).Nodup →
        (∀ t? ∈ partialTables net st corum panther rec, countKeyO t? id ≤ 1) →
        countKey (createQreport net st fasta corum panther rec) id = 1) ∧
      (∀ r ∈ (createQreport net st fasta corum panther rec).rows,
        r.2.map Prod.fst = (createQreport net st fasta corum panther rec).cols) := by
  refine ⟨?_, ?_, ?_⟩
  · exact mergeAll_pos id (partialTables net st corum panther rec) (baseTable fasta rec)
      (Or.inl (countKey_baseTable_pos hid))
  · intro hnd hb
    exact mergeAll_count_one id (partialTables net st corum panther rec)
      (baseTable fasta rec) (countKey_baseTable_one hid hnd) hb
  · exact mergeAll_TWF (partialTables net st corum panther rec) (baseTable fasta rec)
      (baseTable_TWF fasta rec) (partialTables_TWF net st corum panther rec)

/-- C1, witness at a record whose only Ensembl tuple is attributed to a
foreign bracketed id, so the base id occurs at most once in every table. -/
theorem c1_join_multiplicity_witness :
    countKey (createQreport netFail cacheEmpty [] none none recForeignBracket) "P20001" = 1 ∧
      0 < countKey (createQreport netFail cacheEmpty [] none none recForeignBracket) "P20001" := by
  have h := c1_join_multiplicity netFail cacheEmpty [] none none recForeignBracket "P20001"
    (by decide)
  exact ⟨h.2.1 (by decide) (by decide), h.1⟩

/-! ### Claim C2 — null-filling of absent families -/

/-- C2, counterexample: for a record with no GO cross-reference, the merged
per-record row set does not contain the GO columns at all — the all-null
partial table is skipped by the merge, refuting the claim at this input. -/
theorem c2_counterexample :
    xrefTuples recNoAlt "GO" = [] ∧
      "cat_GO_C" ∉ (createQreport netFail cacheEmpty [] none none recNoAlt).cols := by
  decide

/-- C2 (amended): when a family is absent from a record (GO here), its all-null
one-row partial table is dropped by the merge guard, so the family's columns
are omitted from the per-record merged row set; the declared columns are only
restored, null-filled, by the final column completion of to_file, whose output
row always carries exactly the declared column list. -/
theorem c2_absent_family_columns (net : String → Option String) (st : KeggCache)
    (fasta : FastaTbl) (corum : Option (List CorumComplex)) (panther : Option PantherTbl)
    (rec : SwissRecord) (hgo : xrefTuples rec "GO" = []) :
    ("cat_GO_C" ∉ (createQreport net st fasta corum panther rec).cols ∧
      "cat_GO_F" ∉ (createQreport net st fasta corum panther rec).cols ∧
      "cat_GO_P" ∉ (createQreport net st fasta corum panther rec).cols) ∧
    (∀ r ∈ (createQreport net st fasta corum panther rec).rows,
      (finalizeRow r).map Prod.fst = HEADERS) := by
  refine ⟨⟨?_, ?_, ?_⟩, fun r _ => finalizeRow_keys r⟩
  · exact goCol_not_in_merged net st fasta corum panther rec hgo "cat_GO_C" (by decide)
      (by decide) (by decide) (by decide) (by decide) (by decide) (by decide) (by decide)
  · exact goCol_not_in_merged net st fasta corum panther rec hgo "cat_GO_F" (by decide)
      (by decide) (by decide) (by decide) (by decide) (by decide) (by decide) (by decide)
  · exact goCol_not_in_merged net st fasta corum panther rec hgo "cat_GO_P" (by decide)
      (by decide) (by decide) (by decide) (by decide) (by decide) (by decide) (by decide)

/-- C2, witness at the GO-free record. -/
theorem c2_absent_family_columns_witness :
    "cat_GO_C" ∉ (createQreport netFail cacheEmpty [] none none recNoAlt).cols :=
  ((c2_absent_family_columns netFail cacheEmpty [] none none recNoAlt (by decide)).1).1

/-! ### Claim C3 — version-suffix stripping -/

/-- C3, counterexample: a CCDS identifier is emitted verbatim, with its
version suffix kept, refuting the claim that every direct-identifier field is
stripped. -/
theorem c3_counterexample :
    (ccdsRow "P50001" none ["CCDS123.4", "-."]).2 = [("xref_CCDS", some "CCDS123.4")] ∧
      stripVersion "CCDS123.4" = "CCDS123" ∧ "CCDS123.4" ≠ "CCDS123" := by
  decide

/-- C3 (amended): stripping one trailing '.' ++ digits suffix yields the bare
identifier; the Ensembl and RefSeq fields are emitted with exactly this
stripping (the last field after removal of the bracketed isoform annotation),
while the CCDS identifier is emitted verbatim. -/
theorem c3_version_stripping :
    (∀ (t d : List Char), d ≠ [] → (∀ c ∈ d, c.isDigit = true) →
       stripVersion ⟨t ++ '.' :: d⟩ = ⟨t⟩) ∧
    (∀ (acc : String) (disp : Option String) (tup : List String),
       (ensemblRow acc disp tup).2.map Prod.snd =
         [some (stripVersion (tup.getD 1 "")), some (stripVersion (tup.getD 0 "")),
          some (stripVersion (stripIsoSuffix (tup.getD 2 "")))] ∧
       (refseqRow acc disp tup).2.map Prod.snd =
         [some (stripVersion (tup.getD 0 "")),
          some (stripVersion (stripIsoSuffix (tup.getD 1 "")))] ∧
       (ccdsRow acc disp tup).2.map Prod.snd = [some (tup.getD 0 "")]) := by
  constructor
  · intro t d hd hdig
    have hrev : (⟨t ++ '.' :: d⟩ : String).data.reverse = d.reverse ++ '.' :: t.reverse := by
      simp
    have htake : ((⟨t ++ '.' :: d⟩ : String).data.reverse).takeWhile Char.isDigit
        = d.reverse := by
      rw [hrev]
      exact takeWhile_append_stop _ _ _ (fun c hc => hdig c (List.mem_reverse.mp hc))
        (by decide)
    have hdrop : ((⟨t ++ '.' :: d⟩ : String).data.reverse).drop d.reverse.length
        = '.' :: t.reverse := by
      rw [hrev]
      exact List.drop_left _ _
    have hne : d.reverse.isEmpty = false := by
      rcases d with _ | ⟨c, cs⟩
      · exact absurd rfl hd
      · simp
    unfold stripVersion
    rw [htake, hne]
    simp only [Bool.false_eq_true, if_false]
    rw [hdrop]
    simp
  · intro acc disp tup
    exact ⟨rfl, rfl, rfl⟩

/-- C3, witness: the documented particular for Ensembl, and the verbatim CCDS
emission. -/
theorem c3_version_stripping_witness :
    stripVersion "ENSP00000123.4" = "ENSP00000123" ∧
      (ccdsRow "P1" none ["CCDS30547.1", "-."]).2.map Prod.snd = [some "CCDS30547.1"] := by
  constructor
  · exact c3_version_stripping.1 "ENSP00000123".data ['4'] (by decide) (by decide)
  · exact (c3_version_stripping.2 "P1" none ["CCDS30547.1", "-."]).2.2

/-! ### Claim C4 — CORUM membership filtering -/

/-- C4, counterexample: the extractor emits a complex whose member-accession
set does not contain the accession, because the source filter is a substring
test on the member string; the claim's member-set reading yields no value at
the same input. -/
theorem c4_counterexample :
    corumValue (some corumSubstringTbl) "P123" = some "compID_7>Test,Complex" ∧
      (corumSpecMembers { complexId := some 7,
                          complexName := some "Test;Complex",
                          subunits := "P1234" }).contains "P123" = false ∧
      corumValue (some corumSubstringTbl) "P123" ≠
        corumSpecValue (some corumSubstringTbl) "P123" := by
  decide

/-- C4 (amended): the CORUM cell is built from exactly those complexes whose
member string contains the primary accession as a substring (formatted as
compID_<id>>name with ';' replaced by ',' and joined with ';'); this
coincides with member-set containment exactly on tables where the substring
test agrees with membership in the ';'-split member set. -/
theorem c4_corum_membership (l : List CorumComplex) (acc : String)
    (h : ∀ c ∈ l, hasSub c.subunits acc = (corumSpecMembers c).contains acc) :
    corumValue (some l) acc = corumSpecValue (some l) acc := by
  show corumValueList l acc = corumSpecValueList l acc
  unfold corumValueList corumSpecValueList
  have hf : l.filter (fun c => hasSub c.subunits acc)
      = l.filter (fun c => (corumSpecMembers c).contains acc) := List.filter_congr h
  rw [hf]

/-- C4, witness on a table where the accession is a genuine member. -/
theorem c4_corum_membership_witness :
    corumValue (some corumMemberTbl) "P111" = corumSpecValue (some corumMemberTbl) "P111" ∧
      corumValue (some corumMemberTbl) "P111" = some "compID_7>Test,Complex" := by
  exact ⟨c4_corum_membership corumMemberTbl "P111" (by decide), by decide⟩

/-! ### Claim C5 — unresolvable bracketed isoform ids -/

/-- C5, counterexample: a bracketed id absent from the record's isoform list
is attributed to itself, not to the primary accession, and enters the merged
row set as its own row. -/
theorem c5_counterexample :
    (ensemblRow "P20001" none
        ["ENST00000003.3", "ENSP00000003.3", "ENSG00000003.3. [P99999-9]"]).1 = "P99999-9" ∧
      "P99999-9" ∉ isoIds recForeignBracket ∧
      ("P99999-9" : String) ≠ "P20001" ∧
      countKey (createQreport netFail cacheEmpty [] none none recForeignBracket) "P99999-9"
        = 1 := by
  decide

/-- C5 (amended): a bracketed id different from the displayed-isoform id is
attributed to itself — with no check against the known isoform list — and the
outer join keeps its row in the merged row set; only a missing bracket, or one
equal to the displayed id, falls back to the primary accession.  Processing is
total, so it never aborts. -/
theorem c5_unresolved_bracket (net : String → Option String) (st : KeggCache)
    (fasta : FastaTbl) (corum : Option (List CorumComplex)) (panther : Option PantherTbl)
    (rec : SwissRecord) (tup : List String) (b : String)
    (htup : tup ∈ xrefTuples rec "Ensembl")
    (hb : firstBracket (tup.getD 2 "") = some b)
    (hdisp : isoDisplayed rec ≠ some b) :
    (ensemblRow (headAcc rec) (isoDisplayed rec) tup).1 = b ∧
      0 < countKey (createQreport net st fasta corum panther rec) b := by
  have hkey : (ensemblRow (headAcc rec) (isoDisplayed rec) tup).1 = b := by
    show resolveIso (headAcc rec) (isoDisplayed rec) (tup.getD 2 "") = b
    unfold resolveIso
    rw [hb]
    exact if_neg hdisp
  refine ⟨hkey, ?_⟩
  have hne : ¬ (xrefTuples rec "Ensembl").isEmpty = true := by
    intro h
    rw [List.isEmpty_iff] at h
    rw [h] at htup
    cases htup
  have hTdef : ensTable? rec (headAcc rec) (isoDisplayed rec) =
      some { cols := ["xref_Ensembl_protId", "xref_Ensembl_transcId", "xref_Ensembl_GeneId"],
             rows := (xrefTuples rec "Ensembl").map
               (ensemblRow (headAcc rec) (isoDisplayed rec)) } := by
    unfold ensTable?
    rw [if_neg hne]
  show 0 < countKey (mergeAll (baseTable fasta rec)
    (partialTables net st corum panther rec)) b
  apply mergeAll_pos
  refine Or.inr
    ⟨{ cols := ["xref_Ensembl_protId", "xref_Ensembl_transcId", "xref_Ensembl_GeneId"],
       rows := (xrefTuples rec "Ensembl").map (ensemblRow (headAcc rec) (isoDisplayed rec)) },
     ?_, ?_⟩
  · rw [← hTdef]
    simp only [partialTables]
    exact List.mem_cons_self _ _
  · exact countKey_pos_of_mem (List.mem_map_of_mem _ htup) hkey

/-- C5, witness at the record with the unresolvable bracket. -/
theorem c5_unresolved_bracket_witness :
    (ensemblRow "P20001" none
        ["ENST00000003.3", "ENSP00000003.3", "ENSG00000003.3. [P99999-9]"]).1 = "P99999-9" ∧
      0 < countKey (createQreport netFail cacheEmpty [] none none recForeignBracket)
        "P99999-9" := by
  have h := c5_unresolved_bracket netFail cacheEmpty [] none none recForeignBracket
    ["ENST00000003.3", "ENSP00000003.3", "ENSG00000003.3. [P99999-9]"] "P99999-9"
    (by decide) (by decide) (by decide)
  exact h

/-! ### Claim C6 — isoform expansion -/

/-- C6: a record without an alternative-products comment expands to exactly
the primary accession with no displayed isoform; a record declaring K
variant-sequence isoforms (comma-truncated ids) expands to a base table of
K+1 rows, with pairwise distinct isoform ids whenever the declared variant ids
are distinct and differ from the primary accession. -/
theorem c6_isoform_expansion :
    (∀ rec : SwissRecord,
       (∀ c ∈ rec.comments, hasSub c "ALTERNATIVE PRODUCTS:" = false) →
       isoIds rec = [headAcc rec] ∧ isoDisplayed rec = none) ∧
    (∀ (fasta : FastaTbl) (rec : SwissRecord),
       (baseTable fasta rec).rows.length = (variantIds rec).length + 1 ∧
       ((variantIds rec).Nodup → headAcc rec ∉ variantIds rec →
         ((baseTable fasta rec).rows.map Prod.fst).Nodup)) := by
  constructor
  · intro rec h
    have hfilter : rec.comments.filter (fun c => hasSub c "ALTERNATIVE PRODUCTS:") = [] := by
      apply List.filter_eq_nil_iff.mpr
      intro c hc
      simp [h c hc]
    have halt : altProdComment rec = none := by
      unfold altProdComment
      rw [hfilter]
      rfl
    have hpairs : isoPairs rec = [] := by
      unfold isoPairs
      rw [halt]
    constructor
    · unfold isoIds variantIds
      rw [hpairs]
      rfl
    · unfold isoDisplayed
      rw [hpairs]
      rfl
  · intro fasta rec
    constructor
    · show ((isoIds rec).map _).length = _
      rw [List.length_map]
      rfl
    · intro hnd hacc
      have hmap : (baseTable fasta rec).rows.map Prod.fst = isoIds rec := by
        simp only [baseTable]
        rw [List.map_map]
        simp [Function.comp_def]
      rw [hmap]
      show (headAcc rec :: variantIds rec).Nodup
      exact List.nodup_cons.mpr ⟨hacc, hnd⟩

/-- C6, witness: the comment-free record expands to its accession alone; the
record declaring two variants expands to three distinct rows. -/
theorem c6_isoform_expansion_witness :
    (isoIds recNoAlt = ["P40001"] ∧ isoDisplayed recNoAlt = none) ∧
      (baseTable [] recAltProducts).rows.length = 3 ∧
      ((baseTable [] recAltProducts).rows.map Prod.fst).Nodup := by
  refine ⟨c6_isoform_expansion.1 recNoAlt (by decide), ?_, ?_⟩
  · exact (c6_isoform_expansion.2 [] recAltProducts).1
  · exact (c6_isoform_expansion.2 [] recAltProducts).2 (by decide) (by decide)

/-! ### Claim C7 — cache idempotence -/

/-- C7, counterexample: when the first lookup's fetch raises, nothing is
cached, so a second lookup fetches again — two fetches in total — and the two
results differ once the network answers, refuting the claim. -/
theorem c7_counterexample :
    (keggLookup netFail cacheEmpty "hsa:1").2.2 +
        (keggLookup (fun _ => some "X") (keggLookup netFail cacheEmpty "hsa:1").2.1
          "hsa:1").2.2 = 2 ∧
      (keggLookup (fun _ => some "X") (keggLookup netFail cacheEmpty "hsa:1").2.1 "hsa:1").1 ≠
        (keggLookup netFail cacheEmpty "hsa:1").1 := by
  decide

/-- C7 (amended): when the first lookup completes — its fetch, if any, does
not raise — a second lookup for the same identifier issues no further network
fetch (at most one in total) and returns the same derived text, whatever the
network does meanwhile.  A raised fetch caches nothing, so the next lookup
fetches again. -/
theorem c7_cache_idempotence (net1 net2 : String → Option String) (st : KeggCache)
    (id : String) (v : String) (h : (keggLookup net1 st id).1 = some v) :
    (keggLookup net1 st id).2.2 +
        (keggLookup net2 (keggLookup net1 st id).2.1 id).2.2 ≤ 1 ∧
      (keggLookup net2 (keggLookup net1 st id).2.1 id).1 = some v := by
  rcases htxt : st.txt.lookup (replaceColonU id) with _ | v0
  · rcases hdat : st.dat.lookup (replaceColonU id) with _ | record
    · rcases hnet : net1 id with _ | record
      · have h1 : keggLookup net1 st id = (none, st, 1) := by
          simp [keggLookup, htxt, hdat, hnet]
        rw [h1] at h
        cases h
      · by_cases hraw : keggRawDerive record = ""
        · have h1 : keggLookup net1 st id =
              (some (dropTrailingSemi (keggRawDerive record)),
               { st with dat := (replaceColonU id, record) :: st.dat }, 1) := by
            simp [keggLookup, htxt, hdat, hnet, hraw]
          have h2 : keggLookup net2
              { st with dat := (replaceColonU id, record) :: st.dat } id =
              (some (dropTrailingSemi (keggRawDerive record)),
               { st with dat := (replaceColonU id, record) :: st.dat }, 0) := by
            simp [keggLookup, htxt, List.lookup, hraw]
          rw [h1] at h
          injection h with hv
          subst hv
          rw [h1]
          simp [h2]
        · have h1 : keggLookup net1 st id =
              (some (dropTrailingSemi (keggRawDerive record)),
               { st with
                 dat := (replaceColonU id, record) :: st.dat,
                 txt := (replaceColonU id, dropTrailingSemi (keggRawDerive record))
                   :: st.txt }, 1) := by
            simp [keggLookup, htxt, hdat, hnet, hraw]
          have h2 : keggLookup net2
              { st with
                dat := (replaceColonU id, record) :: st.dat,
                txt := (replaceColonU id, dropTrailingSemi (keggRawDerive record))
                  :: st.txt } id =
              (some (dropTrailingSemi (keggRawDerive record)),
               { st with
                 dat := (replaceColonU id, record) :: st.dat,
                 txt := (replaceColonU id, dropTrailingSemi (keggRawDerive record))
                   :: st.txt }, 0) := by
            simp [keggLookup, List.lookup]
          rw [h1] at h
          injection h with hv
          subst hv
          rw [h1]
          simp [h2]
    · by_cases hraw : keggRawDerive record = ""
      · have h1 : keggLookup net1 st id =
            (some (dropTrailingSemi (keggRawDerive record)), st, 0) := by
          simp [keggLookup, htxt, hdat, hraw]
        have h2 : keggLookup net2 st id =
            (some (dropTrailingSemi (keggRawDerive record)), st, 0) := by
          simp [keggLookup, htxt, hdat, hraw]
        rw [h1] at h
        injection h with hv
        subst hv
        rw [h1]
        simp [h2]
      · have h1 : keggLookup net1 st id =
            (some (dropTrailingSemi (keggRawDerive record)),
             { st with
               txt := (replaceColonU id, dropTrailingSemi (keggRawDerive record))
                 :: st.txt }, 0) := by
          simp [keggLookup, htxt, hdat, hraw]
        have h2 : keggLookup net2
            { st with
              txt := (replaceColonU id, dropTrailingSemi (keggRawDerive record))
                :: st.txt } id =
            (some (dropTrailingSemi (keggRawDerive record)),
             { st with
               txt := (replaceColonU id, dropTrailingSemi (keggRawDerive record))
                 :: st.txt }, 0) := by
          simp [keggLookup, List.lookup]
        rw [h1] at h
        injection h with hv
        subst hv
        rw [h1]
        simp [h2]
  · have h1 : keggLookup net1 st id = (some v0, st, 0) := by
      simp [keggLookup, htxt]
    have h2 : keggLookup net2 st id = (some v0, st, 0) := by
      simp [keggLookup, htxt]
    rw [h1] at h
    injection h with hv
    subst hv
    rw [h1]
    simp [h2]

/-- C7, witness: a successful first fetch is cached, so the second lookup is
served from the derived-text file with no further fetch. -/
theorem c7_cache_idempotence_witness :
    (keggLookup netTwoPathways cacheEmpty "hsa:7248").2.2 +
        (keggLookup netTwoPathways (keggLookup netTwoPathways cacheEmpty "hsa:7248").2.1
          "hsa:7248").2.2 ≤ 1 ∧
      (keggLookup netTwoPathways (keggLookup netTwoPathways cacheEmpty "hsa:7248").2.1
          "hsa:7248").1 = some "hsa04110>Cell cycle;hsa04150>mTOR signaling" :=
  c7_cache_idempotence netTwoPathways netTwoPathways cacheEmpty "hsa:7248"
    "hsa04110>Cell cycle;hsa04150>mTOR signaling" (by decide)

/-! ### Claim C8 — semicolon escaping in formatted values -/

/-- C8, counterexample: a GO tuple whose evidence segment contains a literal
';' is emitted with that ';' intact, so a single-entry aspect value splits
into two pieces on ';' — the delimiter is not reserved; KEGG pathway names
keep their ';' as well. -/
theorem c8_counterexample :
    goAspect [goSemiTuple] "C" = some "GO:0000001>C:some component|IDA:Uni;Prot" ∧
      (splitOnChar ';' "GO:0000001>C:some component|IDA:Uni;Prot".data).length = 2 ∧
      deriveKeggText "PATHWAY     hsa1  A;B" = "hsa1>A;B" := by
  decide

/-- C8 (amended): the per-aspect GO value is the ';'-join, in input order, of
the evidence-filtered entries formatted as id '>' description-with-';'-
replaced '|' evidence — the replacement applies to the description segment
only, and the evidence segment is emitted verbatim (as is KEGG-derived
pathway text). -/
theorem c8_semicolon_escaping (rconts : List (List String)) (g : String) :
    goAspect rconts g =
      if (goEntries rconts g).isEmpty then none
      else some (joinSemi (goEntries rconts g)) := by
  show (goDict rconts).lookup g = _
  unfold goDict
  rw [goDict_lookup_general g rconts []]
  rfl

/-! ### Claim C9 — cache write discipline -/

/-- C9: a derived-text file is written only with non-empty content; a fetched
response with no PATHWAY block persists the raw-response file only, the lookup
returns the empty derived text, and every later lookup re-derives the empty
result from the stored raw response with no further network call. -/
theorem c9_cache_write_discipline :
    (∀ (net : String → Option String) (st : KeggCache) (id k v : String),
       st.txt.lookup k = none →
       ((keggLookup net st id).2.1).txt.lookup k = some v → v ≠ "") ∧
    (∀ (net : String → Option String) (st : KeggCache) (id resp : String),
       st.txt.lookup (replaceColonU id) = none →
       st.dat.lookup (replaceColonU id) = none →
       net id = some resp → hasSub resp "PATHWAY" = false →
       (keggLookup net st id).1 = some "" ∧
       ((keggLookup net st id).2.1).txt.lookup (replaceColonU id) = none ∧
       ((keggLookup net st id).2.1).dat.lookup (replaceColonU id) = some resp ∧
       ∀ net2 : String → Option String,
         keggLookup net2 (keggLookup net st id).2.1 id =
           (some "", (keggLookup net st id).2.1, 0)) := by
  constructor
  · intro net st id k v hnone hsome
    rcases htxt : st.txt.lookup (replaceColonU id) with _ | v0
    · rcases hdat : st.dat.lookup (replaceColonU id) with _ | record
      · rcases hnet : net id with _ | record
        · have h1 : ((keggLookup net st id).2.1).txt = st.txt := by
            simp [keggLookup, htxt, hdat, hnet]
          rw [h1, hnone] at hsome
          cases hsome
        · by_cases hraw : keggRawDerive record = ""
          · have h1 : ((keggLookup net st id).2.1).txt = st.txt := by
              simp [keggLookup, htxt, hdat, hnet, hraw]
            rw [h1, hnone] at hsome
            cases hsome
          · have h1 : ((keggLookup net st id).2.1).txt =
                (replaceColonU id, dropTrailingSemi (keggRawDerive record)) :: st.txt := by
              simp [keggLookup, htxt, hdat, hnet, hraw]
            rw [h1] at hsome
            by_cases hk : k = replaceColonU id
            · subst hk
              rw [lookup_cons_self] at hsome
              injection hsome with hv
              rw [← hv]
              exact keggDerived_ne_empty hraw
            · have hkb : (k == replaceColonU id) = false := beq_eq_false_iff_ne.mpr hk
              rw [lookup_cons_ne _ _ hkb, hnone] at hsome
              cases hsome
      · by_cases hraw : keggRawDerive record = ""
        · have h1 : ((keggLookup net st id).2.1).txt = st.txt := by
            simp [keggLookup, htxt, hdat, hraw]
          rw [h1, hnone] at hsome
          cases hsome
        · have h1 : ((keggLookup net st id).2.1).txt =
              (replaceColonU id, dropTrailingSemi (keggRawDerive record)) :: st.txt := by
            simp [keggLookup, htxt, hdat, hraw]
          rw [h1] at hsome
          by_cases hk : k = replaceColonU id
          · subst hk
            rw [lookup_cons_self] at hsome
            injection hsome with hv
            rw [← hv]
            exact keggDerived_ne_empty hraw
          · have hkb : (k == replaceColonU id) = false := beq_eq_false_iff_ne.mpr hk
            rw [lookup_cons_ne _ _ hkb, hnone] at hsome
            cases hsome
    · have h1 : ((keggLookup net st id).2.1).txt = st.txt := by
        simp [keggLookup, htxt]
      rw [h1, hnone] at hsome
      cases hsome
  · intro net st id resp htxt hdat hnet hps
    have hraw : keggRawDerive resp = "" := keggRawDerive_of_no_pathway hps
    have hdrop : dropTrailingSemi "" = "" := rfl
    have h1 : keggLookup net st id =
        (some "", { st with dat := (replaceColonU id, resp) :: st.dat }, 1) := by
      simp [keggLookup, htxt, hdat, hnet, hraw, hdrop]
    rw [h1]
    refine ⟨rfl, ?_, ?_, ?_⟩
    · show st.txt.lookup (replaceColonU id) = none
      exact htxt
    · show List.lookup (replaceColonU id) ((replaceColonU id, resp) :: st.dat) = some resp
      exact lookup_cons_self _ _ _
    · intro net2
      show keggLookup net2 { st with dat := (replaceColonU id, resp) :: st.dat } id = _
      simp [keggLookup, htxt, List.lookup, hraw, hdrop]

/-- C9, witness: the two-pathway fetch writes a non-empty derived-text file;
the PATHWAY-free fetch persists only the raw response and keeps returning the
empty text from it. -/
theorem c9_cache_write_discipline_witness :
    ("hsa04110>Cell cycle;hsa04150>mTOR signaling" : String) ≠ "" ∧
      (keggLookup netNoPathway cacheEmpty "hsa:7248").1 = some "" ∧
      ((keggLookup netNoPathway cacheEmpty "hsa:7248").2.1).dat.lookup "hsa_7248"
        = some keggRespNone := by
  refine ⟨?_, ?_⟩
  · exact c9_cache_write_discipline.1 netTwoPathways cacheEmpty "hsa:7248" "hsa_7248"
      "hsa04110>Cell cycle;hsa04150>mTOR signaling" (by decide) (by decide)
  · have h := c9_cache_write_discipline.2 netNoPathway cacheEmpty "hsa:7248" keggRespNone
      (by decide) (by decide) (by decide) (by decide)
    exact ⟨h.1, h.2.2.1⟩

/-! ### Claim C10 — scalar metadata constancy -/

/-- C10, counterexample: the merged row set of the record with a foreign
bracketed id holds two rows whose Gene cells differ — the outer-join row for
the unresolved id carries null metadata, refuting per-record constancy. -/
theorem c10_counterexample :
    ∃ r1 ∈ (createQreport netFail cacheEmpty [] none none recForeignBracket).rows,
      ∃ r2 ∈ (createQreport netFail cacheEmpty [] none none recForeignBracket).rows,
        r1.2.lookup "Gene" ≠ r2.2.lookup "Gene" := by
  decide

/-- C10 (amended): on every merged row whose isoform id belongs to the
record's isoform-id list, the five scalar metadata cells carry exactly the
record's extracted values; rows added by the outer join for foreign ids are
the only ones that can differ (they carry nulls). -/
theorem c10_metadata_constancy (net : String → Option String) (st : KeggCache)
    (fasta : FastaTbl) (corum : Option (List CorumComplex)) (panther : Option PantherTbl)
    (rec : SwissRecord) :
    ∀ r ∈ (createQreport net st fasta corum panther rec).rows, r.1 ∈ isoIds rec →
      r.2.lookup "xref_UniProt_Name" = some (some rec.entry_name) ∧
      r.2.lookup "Gene" = some (some (extractGene rec.gene_name)) ∧
      r.2.lookup "Species" = some (some (extractSpecies rec.organism)) ∧
      r.2.lookup "Description" = some (some (extractDsc rec.description)) ∧
      r.2.lookup "prot_UniProt_Class" = some (some rec.data_class) := by
  have hstep := mergeAll_row_inv (isoIds rec)
    (fun l =>
      l.lookup "xref_UniProt_Name" = some (some rec.entry_name) ∧
      l.lookup "Gene" = some (some (extractGene rec.gene_name)) ∧
      l.lookup "Species" = some (some (extractSpecies rec.organism)) ∧
      l.lookup "Description" = some (some (extractDsc rec.description)) ∧
      l.lookup "prot_UniProt_Class" = some (some rec.data_class))
    (fun l x h =>
      ⟨lookup_append_some h.1, lookup_append_some h.2.1, lookup_append_some h.2.2.1,
       lookup_append_some h.2.2.2.1, lookup_append_some h.2.2.2.2⟩)
    (partialTables net st corum panther rec) (baseTable fasta rec)
    (fun id hid => countKey_baseTable_pos hid)
    (by
      intro r hr hrid
      rcases List.mem_map.mp hr with ⟨i, _, rfl⟩
      exact ⟨rfl, rfl, rfl, rfl, rfl⟩)
  exact hstep

/-- C10, witness at the alternative-products record: the canonical-isoform
row of the merged set carries the record's gene symbol and species. -/
theorem c10_metadata_constancy_witness :
    ("P30001", rowCellsAltProducts) ∈
        (createQreport netFail cacheEmpty [] none none recAltProducts).rows ∧
      rowCellsAltProducts.lookup "Gene" = some (some (extractGene recAltProducts.gene_name)) ∧
      rowCellsAltProducts.lookup "Species"
        = some (some (extractSpecies recAltProducts.organism)) := by
  have hmem : ("P30001", rowCellsAltProducts) ∈
      (createQreport netFail cacheEmpty [] none none recAltProducts).rows := by decide
  have h := c10_metadata_constancy netFail cacheEmpty [] none none recAltProducts
    ("P30001", rowCellsAltProducts) hmem (by decide)
  exact ⟨hmem, h.2.1, h.2.2.1⟩

end DbScripts
